/-
Verification of the dbeaver-mcp-server database gateway core.

This file gives a shallow embedding, in Lean 4, of the parts of the
TypeScript source that the specification claims talk about:

* the query-safety engine (`validateQuery`, `enforceReadOnly` in
  `src/utils.ts`),
* the schema-diff engine (`compareSchemas`, `compareColumns`,
  `compareIndexes`, `normalizeType`, `parseTableSchema` in
  `src/utils/schema-diff.ts`),
* the connection-pool manager (`getPool` and the per-driver creation
  helpers in `src/pools/connection-pool.ts`), modelled as an explicit
  interleaving semantics,
* the native query executors in `src/dbeaver-client.ts`
  (`executePostgreSQLQuery`, `executeSQLServerQuery`,
  `executeMySQLQuery`), modelled as connection-lifecycle traces,
* the transaction manager (`src/managers/transaction-manager.ts`),
  modelled as explicit state passing over the transaction registry,
* the credential-redaction layer used by `handleListConnections` /
  `handleGetConnectionInfo` (the `redactConnection` helper is imported
  by `src/index.ts` but its definition file is not part of the source
  snapshot; it is modelled from the specification, and marked as such).

JavaScript strings are embedded as `List Char` / `String`; the concrete
regular expressions of the safety engine are hand-compiled to executable
matchers whose backtracking behaviour mirrors the JS regex engine on the
constructs actually used (literals, `\s`, `\w`, `+`, `*`, `;?`, `$`, and
the tempered dot `(?:(?!where).)*`).  `Char.toLower` lowercases ASCII
letters, which matches `String.prototype.toLowerCase` on the ASCII SQL
text the engine handles.
-/
import Mathlib

namespace DBeaverMCP

/-! ### JavaScript string primitives -/

/-- The character class `\s` of JavaScript regular expressions
(ECMAScript WhiteSpace and LineTerminator). -/
def isJsWs (c : Char) : Bool :=
  c = ' ' || c = '\t' || c = '\n' || c = '\r' ||
  c = Char.ofNat 0x0b || c = Char.ofNat 0x0c ||
  c = Char.ofNat 0xa0 || c = Char.ofNat 0x1680 ||
  (Char.ofNat 0x2000 ≤ c && c ≤ Char.ofNat 0x200a) ||
  c = Char.ofNat 0x2028 || c = Char.ofNat 0x2029 ||
  c = Char.ofNat 0x202f || c = Char.ofNat 0x205f ||
  c = Char.ofNat 0x3000 || c = Char.ofNat 0xfeff

/-- The character class `\w` of JavaScript regular expressions. -/
def isJsWord (c : Char) : Bool :=
  (('a' ≤ c && c ≤ 'z') || ('A' ≤ c && c ≤ 'Z') || ('0' ≤ c && c ≤ '9') || c = '_')

/-- The `.` of a JavaScript regular expression without the `s` flag:
every character except a line terminator. -/
def isJsDot (c : Char) : Bool :=
  !(c = '\n' || c = '\r' || c = Char.ofNat 0x2028 || c = Char.ofNat 0x2029)

/-- `String.prototype.trim`, on the character list. -/
def jsTrim (l : List Char) : List Char :=
  ((l.dropWhile isJsWs).reverse.dropWhile isJsWs).reverse

/-- `String.prototype.toLowerCase`, on the character list (ASCII). -/
def jsLower (l : List Char) : List Char :=
  l.map Char.toLower

/-- Lowercased trimmed form of a query, as built by
`query.trim().toLowerCase()` in `src/utils.ts`. -/
def normQuery (q : String) : List Char :=
  jsLower (jsTrim q.data)

/-- `toLowerCase` on a `String`. -/
def strLower (s : String) : String :=
  ⟨jsLower s.data⟩

/-- Consume the literal `p` at the head of `l`, returning the rest. -/
def litAt : List Char → List Char → Option (List Char)
  | [], l => some l
  | _, [] => none
  | p :: ps, c :: cs => if c = p then litAt ps cs else none

/-- `\s+` directly followed by a pattern that cannot start with a
whitespace character: consume a maximal nonempty whitespace run. -/
def skipWs1 : List Char → Option (List Char)
  | [] => none
  | c :: cs => if isJsWs c then some (cs.dropWhile isJsWs) else none

/-- `String.prototype.includes` on character lists. -/
def containsSub (l sub : List Char) : Bool :=
  (List.range (l.length + 1)).any fun i => (litAt sub (l.drop i)).isSome

/-- Unanchored regex search: does `p` match starting at some position? -/
def searchAny (p : List Char → Bool) : List Char → Bool
  | [] => p []
  | l@(_ :: cs) => p l || searchAny p cs

/-! ### The dangerous-query patterns of `validateQuery` (src/utils.ts)

Each `p…At` function is the hand-compiled form of one member of the
`dangerousPatterns` array, matching at the head of its argument; the
overall regex test is `searchAny` of the matcher (JS `RegExp.test` is an
unanchored search).  The input is already lowercased, so the `i` flag is
immaterial. -/

/-- `a\s+b` at the head: literal, one-or-more whitespace, literal.
Maximal-munch for `\s+` is faithful because `b` starts with a
non-whitespace character in every pattern of the source. -/
def litWsLitAt (a b : String) (l : List Char) : Bool :=
  match litAt a.data l with
  | none => false
  | some r =>
    match skipWs1 r with
    | none => false
    | some r2 => (litAt b.data r2).isSome

/-- `a\s+` at the head (patterns `grant\s+`, `revoke\s+`). -/
def litWsAt (a : String) (l : List Char) : Bool :=
  match litAt a.data l with
  | none => false
  | some (c :: _) => isJsWs c
  | some [] => false

/-- `\s*;?\s*$`: optional whitespace, an optional semicolon, optional
whitespace, end of input. -/
def tailWsSemiEnd (l : List Char) : Bool :=
  match l.dropWhile isJsWs with
  | [] => true
  | ';' :: r => r.dropWhile isJsWs = []
  | _ => false

/-- `delete\s+from\s+\w+\s*;?\s*$` at the head. -/
def deleteNoWhereAt (l : List Char) : Bool :=
  match litAt "delete".data l with
  | none => false
  | some r =>
    match skipWs1 r with
    | none => false
    | some r2 =>
      match litAt "from".data r2 with
      | none => false
      | some r3 =>
        match skipWs1 r3 with
        | none => false
        | some (c :: cs) => isJsWord c && tailWsSemiEnd (cs.dropWhile isJsWord)
        | some [] => false

/-- The tempered star `(?:(?!where).)*` followed by `\s*;?\s*$`:
either the tail matches here, or the current position does not start the
literal `where`, the current character is a regex `.`, and the rest
matches after consuming it. -/
def temperedNoWhereTail : List Char → Bool
  | [] => tailWsSemiEnd []
  | l@(c :: cs) =>
    tailWsSemiEnd l ||
      (!(litAt "where".data l).isSome && isJsDot c && temperedNoWhereTail cs)

/-- `\s+` followed by continuation `k`, with full backtracking over the
length of the whitespace run (needed because the continuation of the
`update` pattern can itself consume whitespace). -/
def wsPlusThen (k : List Char → Bool) : List Char → Bool
  | [] => false
  | c :: cs => isJsWs c && (k cs || wsPlusThen k cs)

/-- `update\s+(?:(?!where).)*\s*;?\s*$` at the head. -/
def updateNoWhereAt (l : List Char) : Bool :=
  match litAt "update".data l with
  | none => false
  | some r => wsPlusThen temperedNoWhereTail r

/-- The `dangerousPatterns` test of `validateQuery` in `src/utils.ts`,
in source order. -/
def dangerousHit (t : List Char) : Bool :=
  searchAny (litWsLitAt "drop" "database") t ||
  searchAny (litWsLitAt "drop" "schema") t ||
  searchAny (litWsLitAt "truncate" "table") t ||
  searchAny deleteNoWhereAt t ||
  searchAny updateNoWhereAt t ||
  searchAny (litWsAt "grant") t ||
  searchAny (litWsAt "revoke") t ||
  searchAny (litWsLitAt "create" "user") t ||
  searchAny (litWsLitAt "drop" "user") t ||
  searchAny (litWsLitAt "alter" "user") t ||
  searchAny (fun l => (litAt "shutdown".data l).isSome) t ||
  searchAny (fun l => (litAt "restart".data l).isSome) t

/-- `validateQuery` from `src/utils.ts` (the current version, with the
tempered-dot UPDATE pattern).  The `modifyingPatterns` loop of the
source has no observable effect and is omitted. -/
def validateQuery (q : String) : Option String :=
  if jsTrim q.data = [] then some "Query cannot be empty"
  else if dangerousHit (normQuery q) then
    some "Potentially dangerous query detected. Query blocked for safety."
  else none

/-! ### `enforceReadOnly` (src/utils.ts) -/

/-- `^kw\s` on the (trimmed, lowercased) query. -/
def kwThenWs (kw : String) (t : List Char) : Bool :=
  match litAt kw.data t with
  | some (c :: _) => isJsWs c
  | _ => false

/-- `^set\s+search_path` on the (trimmed, lowercased) query. -/
def setSearchPathAt (t : List Char) : Bool :=
  litWsLitAt "set" "search_path" t

/-- The `readOnlyPrefixes` test of `enforceReadOnly`, in source order. -/
def readOnlyHit (t : List Char) : Bool :=
  kwThenWs "select" t ||
  t = "select".data ||
  kwThenWs "with" t ||
  kwThenWs "explain" t ||
  kwThenWs "show" t ||
  kwThenWs "describe" t ||
  kwThenWs "desc" t ||
  kwThenWs "pragma" t ||
  setSearchPathAt t

/-- `enforceReadOnly` from `src/utils.ts`. -/
def enforceReadOnly (q : String) : Option String :=
  if jsTrim q.data = [] then some "Query cannot be empty"
  else if readOnlyHit (normQuery q) then none
  else
    some ("Only read-only queries (SELECT, EXPLAIN, SHOW, DESCRIBE) are allowed " ++
      "in read-only mode. Use write_query for data modifications.")

/-! ### Schema-diff engine (src/utils/schema-diff.ts)

JavaScript `Map` objects are embedded as association lists with the
`Map.prototype.set` update discipline: setting an existing key replaces
its value in place, a new key is appended, and iteration follows that
order.  `JSON.stringify` equality on arrays of strings coincides with
list equality, so the index-column comparison is embedded as `≠` on
`List String`. -/

/-- `Map.prototype.set`. -/
def insertEntry {α : Type} : List (String × α) → String → α → List (String × α)
  | [], k, v => [(k, v)]
  | (k0, v0) :: rest, k, v =>
    if k0 = k then (k0, v) :: rest else (k0, v0) :: insertEntry rest k v

/-- `Map.prototype.get`. -/
def getEntry {α : Type} (m : List (String × α)) (k : String) : Option α :=
  match m with
  | [] => none
  | (k0, v) :: rest => if k0 = k then some v else getEntry rest k

/-- `Map.prototype.has`. -/
def hasKey {α : Type} (m : List (String × α)) (k : String) : Bool :=
  (getEntry m k).isSome

/-- `new Map(list)`. -/
def mapOfList {α : Type} (l : List (String × α)) : List (String × α) :=
  l.foldl (fun m kv => insertEntry m kv.1 kv.2) []

structure ColumnSchema where
  name : String
  type : String
  nullable : Bool
  defaultValue : Option String
  deriving Repr, DecidableEq

structure IndexSchema where
  name : String
  columns : List String
  unique : Bool
  deriving Repr, DecidableEq

structure TableSchema where
  tableName : String
  columns : List (String × ColumnSchema)
  indexes : List (String × IndexSchema)
  deriving Repr, DecidableEq

inductive DiffStatus where
  | added | removed | modified | unchanged
  deriving Repr, DecidableEq

structure ColumnDiff where
  columnName : String
  status : DiffStatus
  sourceType : Option String := none
  targetType : Option String := none
  changes : List String := []
  deriving Repr, DecidableEq

structure IndexDiff where
  indexName : String
  status : DiffStatus
  changes : List String := []
  deriving Repr, DecidableEq

structure TableDiff where
  tableName : String
  status : DiffStatus
  columnDiffs : List ColumnDiff := []
  indexDiffs : List IndexDiff := []
  deriving Repr, DecidableEq

structure DiffSummary where
  tablesAdded : Nat
  tablesRemoved : Nat
  tablesModified : Nat
  totalDifferences : Nat
  deriving Repr, DecidableEq

structure SchemaDiff where
  sourceConnection : String
  targetConnection : String
  differences : List TableDiff
  summary : DiffSummary
  deriving Repr, DecidableEq

/-- `\(\d+(?:,\s*\d+)?\)` at the head, returning the rest. -/
def parenNumAt (l : List Char) : Option (List Char) :=
  match l with
  | '(' :: r =>
    match r with
    | c :: cs =>
      if c.isDigit then
        match cs.dropWhile Char.isDigit with
        | ')' :: rest => some rest
        | ',' :: r2 =>
          match r2.dropWhile isJsWs with
          | d :: ds =>
            if d.isDigit then
              match ds.dropWhile Char.isDigit with
              | ')' :: rest => some rest
              | _ => none
            else none
          | [] => none
        | _ => none
      else none
    | [] => none
  | _ => none

/-- `String.prototype.replace` with the length-qualifier pattern and an
empty replacement: removes the first match only. -/
def removeFirstParenNum : List Char → List Char
  | [] => []
  | c :: cs =>
    match parenNumAt (c :: cs) with
    | some rest => rest
    | none => c :: removeFirstParenNum cs

/-- The `typeMap` of `normalizeType`, as an association list (no entry
shadows another, so plain lookup is faithful). -/
def typeMap : List (String × String) :=
  [("int", "integer"), ("int4", "integer"), ("int8", "bigint"),
   ("int2", "smallint"), ("bool", "boolean"), ("float4", "real"),
   ("float8", "double precision"), ("varchar", "character varying"),
   ("char", "character"),
   ("timestamp without time zone", "timestamp"),
   ("timestamp with time zone", "timestamptz")]

/-- `normalizeType` from `src/utils/schema-diff.ts`. -/
def normalizeType (t : String) : String :=
  let normalized := jsLower (jsTrim t.data)
  let baseType : String := ⟨jsTrim (removeFirstParenNum normalized)⟩
  match getEntry typeMap baseType with
  | some canonical => canonical
  | none => baseType

/-- `${x || 'NULL'}` for an optional default value (`undefined` and the
empty string are both falsy). -/
def defaultDisp : Option String → String
  | none => "NULL"
  | some s => if s = "" then "NULL" else s

/-- `${b}` for a boolean. -/
def boolStr (b : Bool) : String :=
  if b then "true" else "false"

/-- The change list built for a column present in both schemas. -/
def columnChanges (sc tc : ColumnSchema) : List String :=
  (if normalizeType sc.type ≠ normalizeType tc.type then
    ["type: " ++ sc.type ++ " -> " ++ tc.type] else []) ++
  (if sc.nullable ≠ tc.nullable then
    ["nullable: " ++ boolStr sc.nullable ++ " -> " ++ boolStr tc.nullable] else []) ++
  (if sc.defaultValue ≠ tc.defaultValue then
    ["default: " ++ defaultDisp sc.defaultValue ++ " -> " ++
      defaultDisp tc.defaultValue] else [])

/-- First loop of `compareColumns`: source columns, in map order. -/
def compareColumnsSrc (tgt : List (String × ColumnSchema)) :
    List (String × ColumnSchema) → List ColumnDiff
  | [] => []
  | (k, sc) :: rest =>
    match getEntry tgt k with
    | none =>
      { columnName := sc.name, status := .removed, sourceType := some sc.type } ::
        compareColumnsSrc tgt rest
    | some tc =>
      let changes := columnChanges sc tc
      if changes ≠ [] then
        { columnName := sc.name, status := .modified, sourceType := some sc.type,
          targetType := some tc.type, changes := changes } ::
          compareColumnsSrc tgt rest
      else compareColumnsSrc tgt rest

/-- `compareColumns` from `src/utils/schema-diff.ts`; after the source
loop, `processedColumns` holds exactly the source keys. -/
def compareColumns (src tgt : List (String × ColumnSchema)) : List ColumnDiff :=
  compareColumnsSrc tgt src ++
    (tgt.filter (fun kv => !hasKey src kv.1)).map
      (fun kv => { columnName := kv.2.name, status := .added,
                   targetType := some kv.2.type })

/-- The change list built for an index present in both schemas. -/
def indexChanges (si ti : IndexSchema) : List String :=
  (if si.columns ≠ ti.columns then
    ["columns: [" ++ String.intercalate ", " si.columns ++ "] -> [" ++
      String.intercalate ", " ti.columns ++ "]"] else []) ++
  (if si.unique ≠ ti.unique then
    ["unique: " ++ boolStr si.unique ++ " -> " ++ boolStr ti.unique] else [])

/-- First loop of `compareIndexes`. -/
def compareIndexesSrc (tgt : List (String × IndexSchema)) :
    List (String × IndexSchema) → List IndexDiff
  | [] => []
  | (k, si) :: rest =>
    match getEntry tgt k with
    | none => { indexName := si.name, status := .removed } :: compareIndexesSrc tgt rest
    | some ti =>
      let changes := indexChanges si ti
      if changes ≠ [] then
        { indexName := si.name, status := .modified, changes := changes } ::
          compareIndexesSrc tgt rest
      else compareIndexesSrc tgt rest

/-- `compareIndexes` from `src/utils/schema-diff.ts`. -/
def compareIndexes (src tgt : List (String × IndexSchema)) : List IndexDiff :=
  compareIndexesSrc tgt src ++
    (tgt.filter (fun kv => !hasKey src kv.1)).map
      (fun kv => { indexName := kv.2.name, status := .added })

/-- Source-table loop of `compareSchemas`: removed / modified entries. -/
def compareTablesSrc (tgtMap : List (String × TableSchema)) :
    List (String × TableSchema) → List TableDiff
  | [] => []
  | (k, st) :: rest =>
    match getEntry tgtMap k with
    | none =>
      { tableName := st.tableName, status := .removed } :: compareTablesSrc tgtMap rest
    | some tt =>
      let columnDiffs := compareColumns st.columns tt.columns
      let indexDiffs := compareIndexes st.indexes tt.indexes
      if columnDiffs ≠ [] ∨ indexDiffs ≠ [] then
        { tableName := st.tableName, status := .modified,
          columnDiffs := columnDiffs, indexDiffs := indexDiffs } ::
          compareTablesSrc tgtMap rest
      else compareTablesSrc tgtMap rest

/-- `compareSchemas` from `src/utils/schema-diff.ts`: tables are keyed
by their lowercased name; `processedTables` after the first loop holds
exactly the source-map keys. -/
def compareSchemas (sourceTables targetTables : List TableSchema)
    (sourceConnectionId targetConnectionId : String) : SchemaDiff :=
  let sourceMap := mapOfList (sourceTables.map fun t => (strLower t.tableName, t))
  let targetMap := mapOfList (targetTables.map fun t => (strLower t.tableName, t))
  let differences :=
    compareTablesSrc targetMap sourceMap ++
      (targetMap.filter (fun kv => !hasKey sourceMap kv.1)).map
        (fun kv => { tableName := kv.2.tableName, status := .added : TableDiff })
  { sourceConnection := sourceConnectionId
    targetConnection := targetConnectionId
    differences := differences
    summary :=
      { tablesAdded := (differences.filter (·.status = .added)).length
        tablesRemoved := (differences.filter (·.status = .removed)).length
        tablesModified := (differences.filter (·.status = .modified)).length
        totalDifferences := differences.length } }

/-- Index of the last header equal to `key` after lowercasing
(`colIdx[col.toLowerCase()] = idx` lets later duplicates win). -/
def lastHeaderIdx (headers : List String) (key : String) : Option Nat :=
  ((headers.enum.filter fun p => strLower p.2 = key).map (·.1)).getLast?

/-- `parseTableSchema` from `src/utils/schema-diff.ts`.  Row values are
embedded as strings (`String(row[i])` conversions); a missing cell reads
as the string `"undefined"` exactly as `String(undefined)` does, except
for the default value, which stays absent. -/
def parseTableSchema (tableName : String) (schemaRows : List (List String))
    (columns : List String) : TableSchema :=
  let nameIdx := ((lastHeaderIdx columns "column_name").orElse
    (fun _ => lastHeaderIdx columns "name")).getD 0
  let typeIdx := ((lastHeaderIdx columns "data_type").orElse
    (fun _ => lastHeaderIdx columns "type")).getD 1
  let nullIdx := ((lastHeaderIdx columns "is_nullable").orElse
    (fun _ => lastHeaderIdx columns "notnull")).getD 2
  let defIdx := (lastHeaderIdx columns "column_default").orElse
    (fun _ => lastHeaderIdx columns "dflt_value")
  let columnMap := schemaRows.foldl
    (fun m row =>
      let colName := (row.get? nameIdx).getD "undefined"
      let colType := (row.get? typeIdx).getD "undefined"
      let nullable := (row.get? nullIdx).getD "undefined"
      insertEntry m (strLower colName)
        { name := colName
          type := colType
          nullable := strLower nullable = "yes" || nullable = "0" ||
            strLower nullable = "true"
          defaultValue := defIdx.bind row.get? })
    []
  { tableName := tableName, columns := columnMap, indexes := [] }

/-! ### Connection descriptors -/

/-- `DBeaverConnection` from `src/types.ts` (the fields the embedded
operations consult).  `properties` is the string-keyed record that may
carry the password and ssl settings. -/
structure DBeaverConnection where
  id : String
  name : String
  driver : String
  url : String := ""
  user : Option String := none
  host : Option String := none
  port : Option Nat := none
  database : Option String := none
  folder : Option String := none
  properties : List (String × String) := []
  deriving Repr, DecidableEq

/-- `String.prototype.includes` on strings. -/
def strIncludes (s sub : String) : Bool :=
  containsSub s.data sub.data

/-! ### Connection-pool manager (src/pools/connection-pool.ts)

`getPool` is embedded as an interleaving semantics over the shared pool
registry.  In the Node.js runtime every synchronous segment between two
`await`s is atomic.  Reading the source:

* `getPool` checks `this.pools.has(poolKey)` (line 39) and dispatches on
  the driver with **no** `await` before the creation helper starts;
* `createPostgresPool` and `createMysqlPool` contain no `await` at all —
  the native constructor runs and `this.pools.set` executes in the same
  synchronous segment as the registry check;
* `createMssqlPool` runs the native constructor `new sql.ConnectionPool`
  and then suspends at `await pool.connect()` (line 166) **before**
  `this.pools.set(connection.id, entry)` (line 175).

There is no in-flight-creation registry anywhere in the class (its only
fields are `pools`, `config`, `debug`).  A task performing `getPool`
therefore has at most two atomic segments, the second one only on the
MSSQL path.  Native pool objects are numbered by a counter so that
distinct constructor runs are observable. -/

/-- Phase of one `getPool` task. -/
inductive GetPoolPhase where
  /-- The call has been issued; its first synchronous segment has not run. -/
  | ready
  /-- MSSQL path: the native constructor ran, producing object `obj`;
  the task is suspended at `await pool.connect()`. -/
  | connecting (obj : Nat)
  /-- The call resolved with the given pool object (`none` = `null`). -/
  | returned (result : Option Nat)
  deriving Repr, DecidableEq

/-- Shared state of the pool manager plus the running `getPool` tasks
(all for the same connection descriptor). -/
structure PoolSim where
  /-- The `pools` registry, keyed by connection id. -/
  pools : List (String × Nat)
  /-- Numbering for the next native pool object. -/
  nextObj : Nat
  /-- How many times a native pool constructor has run. -/
  ctorRuns : Nat
  tasks : List GetPoolPhase
  deriving Repr, DecidableEq

/-- Replace element `i` of a list. -/
def setTask (ts : List GetPoolPhase) (i : Nat) (p : GetPoolPhase) : List GetPoolPhase :=
  ts.set i p

/-- Run one atomic segment of task `i` calling `getPool conn`. -/
def poolStep (conn : DBeaverConnection) (s : PoolSim) (i : Nat) : PoolSim :=
  match s.tasks.get? i with
  | none => s
  | some (.returned _) => s
  | some (.connecting obj) =>
    -- resume after `await pool.connect()`: register and return the entry
    { s with pools := insertEntry s.pools conn.id obj
             tasks := setTask s.tasks i (.returned (some obj)) }
  | some .ready =>
    let driver := strLower conn.driver
    match getEntry s.pools conn.id with
    | some obj => { s with tasks := setTask s.tasks i (.returned (some obj)) }
    | none =>
      if strIncludes driver "postgres" ∨
          (strIncludes driver "mysql" ∨ strIncludes driver "mariadb") then
        -- constructor, registration and return in one synchronous segment
        { s with pools := insertEntry s.pools conn.id s.nextObj
                 nextObj := s.nextObj + 1
                 ctorRuns := s.ctorRuns + 1
                 tasks := setTask s.tasks i (.returned (some s.nextObj)) }
      else if strIncludes driver "mssql" ∨ strIncludes driver "sqlserver" then
        -- constructor runs, then the task suspends at `pool.connect()`
        { s with nextObj := s.nextObj + 1
                 ctorRuns := s.ctorRuns + 1
                 tasks := setTask s.tasks i (.connecting s.nextObj) }
      else
        { s with tasks := setTask s.tasks i (.returned none) }

/-- `n` concurrent `getPool conn` calls, before any creation exists. -/
def initPoolSim (n : Nat) : PoolSim :=
  { pools := [], nextObj := 0, ctorRuns := 0, tasks := List.replicate n .ready }

/-- Execute a schedule (a list of task indices; each entry runs one
atomic segment of that task). -/
def runPoolSchedule (conn : DBeaverConnection) (n : Nat) (sched : List Nat) : PoolSim :=
  sched.foldl (poolStep conn) (initPoolSim n)

/-! ### Native query executors (src/dbeaver-client.ts)

Each executor is embedded as the connection-lifecycle trace it produces,
with the success of the backend calls supplied as oracle booleans. -/

/-- Lifecycle trace of one native query execution. -/
structure NativeExecTrace where
  /-- A backend connection (or ad-hoc pool) was established. -/
  opened : Bool
  /-- The close/end call was invoked before the function returned or threw. -/
  closeAttempted : Bool
  /-- A close failure was caught and logged with host/database context. -/
  closeFailureLogged : Bool
  /-- The call threw. -/
  failed : Bool
  deriving Repr, DecidableEq

/-- `executePostgreSQLQuery` (src/dbeaver-client.ts lines 373–397):
`client.connect()`/`client.query()` inside `try`, and a `finally` block
that always runs `client.end()`, logging any close failure together with
the host and database. -/
def executePostgreSQLQuery (connectOk queryOk closeOk : Bool) : NativeExecTrace :=
  { opened := connectOk
    closeAttempted := true
    closeFailureLogged := !closeOk
    failed := !connectOk || !queryOk }

/-- `executeMySQLQuery` (src/dbeaver-client.ts lines 555–588): `conn` is
assigned only when `mysql.createConnection` resolves; the `finally`
block closes it when assigned and logs a close failure with host and
database. -/
def executeMySQLQuery (connectOk queryOk closeOk : Bool) : NativeExecTrace :=
  { opened := connectOk
    closeAttempted := connectOk
    closeFailureLogged := connectOk && !closeOk
    failed := !connectOk || !queryOk }

/-- `executeSQLServerQuery` (src/dbeaver-client.ts lines 399–461): the
body is a plain `try { connect; query; …; await pool.close(); return }
catch { throw wrapped }` with **no** `finally`; `pool.close()` (line
448) runs only after a successful query, and a close failure propagates
as the wrapped thrown error rather than being logged. -/
def executeSQLServerQuery (connectOk queryOk closeOk : Bool) : NativeExecTrace :=
  if !connectOk then
    { opened := false, closeAttempted := false, closeFailureLogged := false,
      failed := true }
  else if !queryOk then
    -- the thrown statement error skips `pool.close()` entirely
    { opened := true, closeAttempted := false, closeFailureLogged := false,
      failed := true }
  else
    { opened := true, closeAttempted := true, closeFailureLogged := false,
      failed := !closeOk }

/-! ### Transaction manager (src/managers/transaction-manager.ts)

The registry is embedded as explicit state; the backend calls (pool
checkout, `BEGIN`, `COMMIT`, `ROLLBACK`) are oracles.  Time is `Int`
(`Date.now()` arithmetic). -/

inductive TxStatus where
  | active | committed | rolled_back
  deriving Repr, DecidableEq

def txStatusStr : TxStatus → String
  | .active => "active"
  | .committed => "committed"
  | .rolled_back => "rolled_back"

/-- `Transaction` from `src/types.ts`. -/
structure Transaction where
  id : String
  connectionId : String
  startedAt : Int
  status : TxStatus
  deriving Repr, DecidableEq

inductive ClientKind where
  | postgres | mysql | mssql
  deriving Repr, DecidableEq

/-- `ActiveTransaction` (registry value); the bound client handle is
represented by its kind. -/
structure ActiveTransaction where
  transaction : Transaction
  type : ClientKind
  deriving Repr, DecidableEq

/-- `TransactionResult` from `src/types.ts`. -/
structure TransactionResult where
  transactionId : String
  status : String
  message : String
  deriving Repr, DecidableEq

/-- The transaction registry (`this.transactions`). -/
structure TMState where
  transactions : List (String × ActiveTransaction)
  deriving Repr, DecidableEq

/-- `Map.prototype.delete`. -/
def removeEntry {α : Type} (m : List (String × α)) (k : String) : List (String × α) :=
  m.filter fun kv => kv.1 ≠ k

/-- `generateTransactionId`: `txn_` + `Date.now()` + `_` + a random
hex string; the randomness is supplied as the `nonce` argument. -/
def generateTransactionId (now : Int) (nonce : String) : String :=
  "txn_" ++ toString now ++ "_" ++ nonce

/-- The tail of `beginTransaction` once the driver has been classified:
the client checkout plus backend begin operation (oracle `beginOk`),
then registration of the fresh transaction with status `active` and the
`"started"` result. -/
def beginRegister (st : TMState) (conn : DBeaverConnection) (now : Int)
    (transactionId : String) (k : ClientKind) (beginOk : Bool) :
    Except String TransactionResult × TMState :=
  if !beginOk then (.error "failed to begin transaction", st)
  else
    (.ok { transactionId := transactionId, status := "started",
           message := "Transaction " ++ transactionId ++ " started successfully" },
     { transactions := insertEntry st.transactions transactionId
         { transaction := { id := transactionId, connectionId := conn.id,
                            startedAt := now, status := .active }
           type := k } })

/-- `beginTransaction`.  `poolOk` is the oracle for
`poolManager.getPool` returning a usable entry.  The driver string is
classified by case-insensitive substring match exactly as in the source,
then the transaction is begun and registered by `beginRegister`. -/
def beginTransaction (st : TMState) (conn : DBeaverConnection) (now : Int)
    (nonce : String) (poolOk beginOk : Bool) :
    Except String TransactionResult × TMState :=
  if !poolOk then
    (.error ("No pool available for driver: " ++ conn.driver), st)
  else if strIncludes (strLower conn.driver) "postgres" then
    beginRegister st conn now (generateTransactionId now nonce) .postgres beginOk
  else if strIncludes (strLower conn.driver) "mysql" ∨
      strIncludes (strLower conn.driver) "mariadb" then
    beginRegister st conn now (generateTransactionId now nonce) .mysql beginOk
  else if strIncludes (strLower conn.driver) "mssql" ∨
      strIncludes (strLower conn.driver) "sqlserver" then
    beginRegister st conn now (generateTransactionId now nonce) .mssql beginOk
  else
    (.error ("Transactions not supported for driver: " ++ conn.driver), st)

/-- `commitTransaction`.  `backendOk` is the oracle for the backend
commit call; on its failure the client is force-released, the registry
entry is removed anyway, and the error is rethrown. -/
def commitTransaction (st : TMState) (transactionId : String) (backendOk : Bool) :
    Except String TransactionResult × TMState :=
  match getEntry st.transactions transactionId with
  | none => (.error ("Transaction " ++ transactionId ++ " not found"), st)
  | some active =>
    if active.transaction.status ≠ .active then
      (.error ("Transaction " ++ transactionId ++ " is already " ++
        txStatusStr active.transaction.status), st)
    else if backendOk then
      (.ok { transactionId := transactionId, status := "committed",
             message := "Transaction " ++ transactionId ++ " committed successfully" },
       { transactions := removeEntry st.transactions transactionId })
    else
      (.error "commit failed",
       { transactions := removeEntry st.transactions transactionId })

/-- `rollbackTransaction`; same structure as `commitTransaction`. -/
def rollbackTransaction (st : TMState) (transactionId : String) (backendOk : Bool) :
    Except String TransactionResult × TMState :=
  match getEntry st.transactions transactionId with
  | none => (.error ("Transaction " ++ transactionId ++ " not found"), st)
  | some active =>
    if active.transaction.status ≠ .active then
      (.error ("Transaction " ++ transactionId ++ " is already " ++
        txStatusStr active.transaction.status), st)
    else if backendOk then
      (.ok { transactionId := transactionId, status := "rolled_back",
             message := "Transaction " ++ transactionId ++ " rolled back successfully" },
       { transactions := removeEntry st.transactions transactionId })
    else
      (.error "rollback failed",
       { transactions := removeEntry st.transactions transactionId })

/-- The sweep loop of `cleanupStaleTransactions`: iterate over the
entries present when the sweep starts (only the key under scrutiny is
ever deleted, so iterating the initial entry list while threading the
live registry matches the JS `for…of` over the mutating `Map`).
`rollbackOk` is the per-transaction oracle for the backend rollback. -/
def cleanupLoop (now maxAgeMs : Int) (rollbackOk : String → Bool) :
    List (String × ActiveTransaction) → TMState → Nat × TMState
  | [], st => (0, st)
  | (id, active) :: rest, st =>
    if now - active.transaction.startedAt > maxAgeMs then
      match rollbackTransaction st id (rollbackOk id) with
      | (.ok _, st2) =>
        let (n, st3) := cleanupLoop now maxAgeMs rollbackOk rest st2
        (n + 1, st3)
      | (.error _, st2) =>
        -- catch branch: force-delete the entry, still count it
        let st2' : TMState := { transactions := removeEntry st2.transactions id }
        let (n, st3) := cleanupLoop now maxAgeMs rollbackOk rest st2'
        (n + 1, st3)
    else
      cleanupLoop now maxAgeMs rollbackOk rest st

/-- `cleanupStaleTransactions` (default threshold 3600000 ms). -/
def cleanupStaleTransactions (st : TMState) (now : Int)
    (rollbackOk : String → Bool) (maxAgeMs : Int := 3600000) : Nat × TMState :=
  cleanupLoop now maxAgeMs rollbackOk st.transactions st

/-! ### Credential redaction (spec-modelled) and the connection handlers

`src/index.ts` (`handleListConnections`, `handleGetConnectionInfo`)
redacts every connection through `redactConnection` before serializing
it with `JSON.stringify`; `redactConnection`/`redactArgs` are imported
from `./utils.js`, but the file defining them is not part of the source
snapshot, so they are modelled from the specification. -/

/-- The fixed replacement marker. -/
def redactionMarker : String := "***REDACTED***"

/-- A password/secret-shaped property key. -/
def isSecretKey (k : String) : Bool :=
  strIncludes (strLower k) "password" || strIncludes (strLower k) "secret" ||
    strIncludes (strLower k) "passwd" || strIncludes (strLower k) "token"

/-- Modelled from the spec: `redactConnection` (§4.4 Redaction) — the
definition of this helper is missing from the source snapshot (it is
imported from `./utils.js` by `src/index.ts`); per the specification it
replaces every password/secret-shaped field of the connection object by
a fixed marker and leaves everything else unchanged. -/
def redactConnection (c : DBeaverConnection) : DBeaverConnection :=
  { c with properties := c.properties.map fun kv =>
      if isSecretKey kv.1 then (kv.1, redactionMarker) else kv }

/-- `JSON.stringify` of a string (escaping elided: the inputs under
study contain no quotes or control characters). -/
def jsonStr (s : String) : String := "\"" ++ s ++ "\""

/-- Serialization of an optional field (omitted when `undefined`). -/
def jsonOptField (name : String) : Option String → String
  | none => ""
  | some v => "," ++ jsonStr name ++ ":" ++ jsonStr v

/-- `JSON.stringify` of a connection object (fields in declaration
order, `undefined` fields omitted, braces written as escapes). -/
def serializeConnection (c : DBeaverConnection) : String :=
  "\x7b" ++ jsonStr "id" ++ ":" ++ jsonStr c.id ++
  "," ++ jsonStr "name" ++ ":" ++ jsonStr c.name ++
  "," ++ jsonStr "driver" ++ ":" ++ jsonStr c.driver ++
  "," ++ jsonStr "url" ++ ":" ++ jsonStr c.url ++
  jsonOptField "user" c.user ++
  jsonOptField "host" c.host ++
  (match c.port with
   | none => ""
   | some p => "," ++ jsonStr "port" ++ ":" ++ toString p) ++
  jsonOptField "database" c.database ++
  jsonOptField "folder" c.folder ++
  "," ++ jsonStr "properties" ++ ":\x7b" ++
  String.intercalate ","
    (c.properties.map fun kv => jsonStr kv.1 ++ ":" ++ jsonStr kv.2) ++
  "\x7d\x7d"

/-- The text payload of `handleGetConnectionInfo` (src/index.ts): the
connection is redacted, then serialized. -/
def getConnectionInfoText (c : DBeaverConnection) : String :=
  serializeConnection (redactConnection c)

/-- The text payload of `handleListConnections` with
`includeDetails = true` (src/index.ts): every connection is redacted,
then the array is serialized. -/
def listConnectionsDetailsText (conns : List DBeaverConnection) : String :=
  "[" ++ String.intercalate ","
    ((conns.map redactConnection).map serializeConnection) ++ "]"

/-- Set (or add) one property of a connection. -/
def withProp (c : DBeaverConnection) (k v : String) : DBeaverConnection :=
  { c with properties := insertEntry c.properties k v }

/-- Substring test on strings. -/
def strContains (s sub : String) : Bool :=
  containsSub s.data sub.data

/-! ### Lemmas about the string matchers -/

theorem litAt_append (p r : List Char) : litAt p (p ++ r) = some r := by
  induction p with
  | nil => simp [litAt]
  | cons c cs ih => simp [litAt, ih]

theorem litAt_eq_some {p l r : List Char} : litAt p l = some r ↔ l = p ++ r := by
  induction p generalizing l with
  | nil => simp [litAt]
  | cons c cs ih =>
    cases l with
    | nil => simp [litAt]
    | cons d ds =>
      by_cases hd : d = c
      · subst hd
        simp [litAt, ih]
      · simp [litAt, hd, Ne.symm hd]

theorem dropWhile_all_append (w l : List Char)
    (hw : ∀ c ∈ w, isJsWs c = true) :
    (w ++ l).dropWhile isJsWs = l.dropWhile isJsWs := by
  induction w with
  | nil => rfl
  | cons c cs ih =>
    have hc : isJsWs c = true := hw c (List.mem_cons_self _ _)
    simp only [List.cons_append, List.dropWhile_cons, hc, if_true]
    exact ih fun x hx => hw x (List.mem_cons_of_mem _ hx)

theorem dropWhile_head_false {c : Char} {cs : List Char} (hc : isJsWs c = false) :
    (c :: cs).dropWhile isJsWs = c :: cs := by
  simp [List.dropWhile_cons, hc]

theorem skipWs1_run {w : List Char} (l : List Char) (hne : w ≠ [])
    (hw : ∀ c ∈ w, isJsWs c = true) (hl : l.dropWhile isJsWs = l) :
    skipWs1 (w ++ l) = some l := by
  cases w with
  | nil => exact absurd rfl hne
  | cons c cs =>
    have hc : isJsWs c = true := hw c (List.mem_cons_self _ _)
    have hcs : ∀ x ∈ cs, isJsWs x = true := fun x hx => hw x (List.mem_cons_of_mem _ hx)
    simp only [List.cons_append, skipWs1, hc, if_true]
    rw [dropWhile_all_append cs l hcs, hl]

theorem skipWs1_eq_some {l r : List Char} (h : skipWs1 l = some r) :
    ∃ w, l = w ++ r ∧ w ≠ [] ∧ (∀ c ∈ w, isJsWs c = true) ∧
      r.dropWhile isJsWs = r := by
  cases l with
  | nil => simp [skipWs1] at h
  | cons c cs =>
    by_cases hc : isJsWs c = true
    · simp only [skipWs1, hc, if_true, Option.some.injEq] at h
      subst h
      refine ⟨c :: cs.takeWhile isJsWs, ?_, by simp, ?_,
        List.dropWhile_idempotent _ _⟩
      · simp [List.takeWhile_append_dropWhile]
      · intro x hx
        rcases List.mem_cons.mp hx with hx | hx
        · exact hx ▸ hc
        · exact List.mem_takeWhile_imp hx
    · have hc2 : isJsWs c = false := by simpa using hc
      simp [skipWs1, hc2] at h

theorem searchAny_append (p : List Char → Bool) (pre l : List Char)
    (h : p l = true) : searchAny p (pre ++ l) = true := by
  induction pre with
  | nil =>
    cases l with
    | nil => simpa [searchAny] using h
    | cons c cs => simp [searchAny, h]
  | cons c cs ih => simp [searchAny, ih]

/-! ### C3 -/

/-- C3: `validateQuery` accepts `UPDATE`/`DELETE` statements that carry a
WHERE clause and rejects the bare forms — concretely,
`validateQuery "UPDATE t SET c=1 WHERE id=1"` and
`validateQuery "DELETE FROM t WHERE id=1"` are `none`, while
`validateQuery "UPDATE t SET c=1"` and `validateQuery "DELETE FROM t"`
return a non-null rejection reason. -/
theorem validateQuery_where_detection :
    validateQuery "UPDATE t SET c=1 WHERE id=1" = none ∧
    validateQuery "DELETE FROM t WHERE id=1" = none ∧
    validateQuery "UPDATE t SET c=1" ≠ none ∧
    validateQuery "DELETE FROM t" ≠ none := by
  exact ⟨by decide, by decide, by decide, by decide⟩

/-! ### C9 -/

/-- C9 counterexample: `"TRUNCATE users"` begins with the TRUNCATE
keyword (after trimming and lowercasing) yet `validateQuery` accepts it:
the blocked pattern is `truncate\s+table`, which requires the `TABLE`
keyword. -/
theorem validateQuery_truncate_counterexample :
    (litAt "truncate".data (normQuery "TRUNCATE users")).isSome = true ∧
    validateQuery "TRUNCATE users" = none := by
  exact ⟨by decide, by decide⟩

/-- The trimmed lowercased statement contains `truncate`, whitespace,
then `table`, somewhere. -/
def containsTruncTable (t : List Char) : Prop :=
  ∃ pre w rest,
    t = pre ++ ("truncate".data ++ (w ++ ("table".data ++ rest))) ∧
    w ≠ [] ∧ ∀ c ∈ w, isJsWs c = true

/-- C9 (amended): `validateQuery` rejects every statement whose trimmed,
lowercased text contains `TRUNCATE` followed by whitespace and the
`TABLE` keyword (anywhere, not only at the start); a `TRUNCATE` of a
table that does not use the `TABLE` keyword is not rejected. -/
theorem validateQuery_truncate_table_amended (q : String)
    (h : containsTruncTable (normQuery q)) : validateQuery q ≠ none := by
  obtain ⟨pre, w, rest, heq, hne, hw⟩ := h
  have h1 : litAt "truncate".data
      ("truncate".data ++ (w ++ ("table".data ++ rest))) =
      some (w ++ ("table".data ++ rest)) :=
    litAt_append _ _
  have h2 : skipWs1 (w ++ ("table".data ++ rest)) =
      some ("table".data ++ rest) := by
    refine skipWs1_run _ hne hw ?_
    exact dropWhile_head_false (by decide)
  have hmatch : litWsLitAt "truncate" "table"
      ("truncate".data ++ (w ++ ("table".data ++ rest))) = true := by
    simp only [litWsLitAt, h1, h2, litAt_append, Option.isSome_some]
  have hsearch : searchAny (litWsLitAt "truncate" "table") (normQuery q) = true := by
    rw [heq]
    exact searchAny_append _ pre _ hmatch
  have htrim : jsTrim q.data ≠ [] := by
    intro hnil
    have hempty : normQuery q = [] := by
      rw [normQuery, hnil]; rfl
    rw [hempty] at heq
    have hlen := congrArg List.length heq
    simp [List.length_append] at hlen
    omega
  have hdanger : dangerousHit (normQuery q) = true := by
    simp [dangerousHit, hsearch]
  simp [validateQuery, htrim, hdanger]

/-- Witness for the amended C9 theorem at `"TRUNCATE TABLE users"`. -/
theorem validateQuery_truncate_table_amended_witness :
    containsTruncTable (normQuery "TRUNCATE TABLE users") ∧
    validateQuery "TRUNCATE TABLE users" ≠ none := by
  have h : containsTruncTable (normQuery "TRUNCATE TABLE users") := by
    refine ⟨[], [' '], ' ' :: "users".data, by decide, by decide, ?_⟩
    intro c hc
    simp at hc
    rw [hc]
    decide
  exact ⟨h, validateQuery_truncate_table_amended "TRUNCATE TABLE users" h⟩

/-! ### C1 -/

/-- An MSSQL connection descriptor. -/
def mssqlDemoConn : DBeaverConnection :=
  { id := "c1", name := "sqlserver-prod", driver := "mssql" }

/-- C1 is falsified by the code: for an MSSQL connection, two `getPool`
calls interleaved at the `await pool.connect()` suspension point (which
sits between the registry check and the registration) each run the
native pool constructor, hold two live pools simultaneously, and resolve
to two different pools — there is no in-flight-creation marker in
`ConnectionPoolManager`.  Schedule: segment A of task 0, segment A of
task 1, segment B of task 0, segment B of task 1. -/
theorem getPool_mssql_race_code_bug :
    (runPoolSchedule mssqlDemoConn 2 [0, 1]).tasks =
      [.connecting 0, .connecting 1] ∧
    (runPoolSchedule mssqlDemoConn 2 [0, 1]).ctorRuns = 2 ∧
    (runPoolSchedule mssqlDemoConn 2 [0, 1, 0, 1]).tasks =
      [.returned (some 0), .returned (some 1)] ∧
    (0 : Nat) ≠ 1 := by
  exact ⟨by decide, by decide, by decide, by decide⟩

/-! ### C2 -/

/-- C2 is falsified by the code on the SQL Server path: the PostgreSQL
and MySQL executors always attempt to close whatever they opened (via
`finally` blocks that log close failures with host/database context),
but `executeSQLServerQuery` has no `finally` — when the statement fails
after a successful connect, the call throws with the pool left open and
`pool.close()` never attempted. -/
theorem sqlserver_close_skipped_code_bug :
    (∀ c q cl, (executePostgreSQLQuery c q cl).closeAttempted = true) ∧
    (∀ c q cl, (executeMySQLQuery c q cl).closeAttempted =
      (executeMySQLQuery c q cl).opened) ∧
    executeSQLServerQuery true false true =
      { opened := true, closeAttempted := false, closeFailureLogged := false,
        failed := true } := by
  refine ⟨fun c q cl => rfl, fun c q cl => rfl, rfl⟩

/-! ### C8 -/

/-- A table identical in source and target. -/
def c8Table : TableSchema :=
  { tableName := "users"
    columns := [("id", { name := "id", type := "int", nullable := false,
                         defaultValue := none })]
    indexes := [("users_pk", { name := "users_pk", columns := ["id"],
                               unique := true })] }

/-- C8 counterexample: a table present in both inputs whose compared
attributes all agree yields **no** `TableDiff` entry at all (in
particular none with status `unchanged`), and the summary carries no
count of unchanged tables — it counts only added, removed, modified and
the total. -/
theorem compareSchemas_unchanged_counterexample :
    (compareSchemas [c8Table] [c8Table] "src" "dst").differences = [] ∧
    (compareSchemas [c8Table] [c8Table] "src" "dst").summary =
      { tablesAdded := 0, tablesRemoved := 0, tablesModified := 0,
        totalDifferences := 0 } := by
  exact ⟨by decide, by decide⟩

/-! ### C4 -/

/-- The keyword list named by claim C4 / property P2. -/
def readOnlyKeywords : List String :=
  ["select", "with", "explain", "show", "describe", "desc", "pragma"]

/-- Claim C4 as stated (second definition, following the claim's words):
the trimmed, case-folded query starts with one of the keywords (as a
token: either the whole statement is the keyword or the keyword is
followed by whitespace), or it is a `set search_path` statement. -/
def claimedReadOnlyStart (t : List Char) : Prop :=
  (∃ kw ∈ readOnlyKeywords,
    t = kw.data ∨ ∃ c rest, t = kw.data ++ c :: rest ∧ isJsWs c = true) ∨
  (∃ w rest, t = "set".data ++ (w ++ ("search_path".data ++ rest)) ∧
    w ≠ [] ∧ ∀ c ∈ w, isJsWs c = true)

/-- The read-only acceptance condition actually implemented: bare
`select` is special-cased, every other keyword must be followed by a
whitespace character. -/
def amendedReadOnly (t : List Char) : Prop :=
  t = "select".data ∨
  (∃ kw ∈ readOnlyKeywords, ∃ c rest, t = kw.data ++ c :: rest ∧ isJsWs c = true) ∨
  (∃ w rest, t = "set".data ++ (w ++ ("search_path".data ++ rest)) ∧
    w ≠ [] ∧ ∀ c ∈ w, isJsWs c = true)

/-- C4 counterexample: the bare statement `"desc"` starts with (indeed
is) the keyword `desc`, so the claim requires `enforceReadOnly "desc"`
to be null, but every keyword regex except bare `select` demands a
following whitespace character and the query is rejected. -/
theorem enforceReadOnly_desc_counterexample :
    claimedReadOnlyStart (normQuery "desc") ∧ enforceReadOnly "desc" ≠ none := by
  constructor
  · left
    exact ⟨"desc", by decide, Or.inl (by decide)⟩
  · decide

theorem kwThenWs_iff (kw : String) (t : List Char) :
    kwThenWs kw t = true ↔
      ∃ c rest, t = kw.data ++ c :: rest ∧ isJsWs c = true := by
  constructor
  · intro h
    unfold kwThenWs at h
    cases hl : litAt kw.data t with
    | none => rw [hl] at h; simp at h
    | some r =>
      rw [hl] at h
      cases r with
      | nil => simp at h
      | cons c rest =>
        simp only at h
        exact ⟨c, rest, litAt_eq_some.mp hl, h⟩
  · rintro ⟨c, rest, rfl, hc⟩
    unfold kwThenWs
    rw [litAt_append]
    exact hc

theorem searchPathTail_dropWhile (rest : List Char) :
    ("search_path".data ++ rest).dropWhile isJsWs = "search_path".data ++ rest :=
  dropWhile_head_false (by decide)

theorem setSearchPathAt_iff (t : List Char) :
    setSearchPathAt t = true ↔
      ∃ w rest, t = "set".data ++ (w ++ ("search_path".data ++ rest)) ∧
        w ≠ [] ∧ ∀ c ∈ w, isJsWs c = true := by
  unfold setSearchPathAt litWsLitAt
  cases h1 : litAt "set".data t with
  | none =>
    refine iff_of_false (by simp) ?_
    rintro ⟨w, rest, rfl, -, -⟩
    rw [litAt_append] at h1
    cases h1
  | some r =>
    cases h2 : skipWs1 r with
    | none =>
      refine iff_of_false (by simp [h2]) ?_
      rintro ⟨w, rest, hEq, hne, hw⟩
      rw [hEq, litAt_append] at h1
      obtain rfl : r = w ++ ("search_path".data ++ rest) := by
        exact (Option.some.injEq _ _ ▸ h1).symm
      rw [skipWs1_run _ hne hw (searchPathTail_dropWhile rest)] at h2
      cases h2
    | some r2 =>
      cases h3 : litAt "search_path".data r2 with
      | none =>
        refine iff_of_false (by simp [h2, h3]) ?_
        rintro ⟨w, rest, hEq, hne, hw⟩
        rw [hEq, litAt_append] at h1
        obtain rfl : r = w ++ ("search_path".data ++ rest) := by
          exact (Option.some.injEq _ _ ▸ h1).symm
        rw [skipWs1_run _ hne hw (searchPathTail_dropWhile rest)] at h2
        obtain rfl : r2 = "search_path".data ++ rest := by
          exact (Option.some.injEq _ _ ▸ h2).symm
        rw [litAt_append] at h3
        cases h3
      | some rest =>
        refine iff_of_true (by simp [h2, h3]) ?_
        obtain ⟨w, hw1, hw2, hw3, -⟩ := skipWs1_eq_some h2
        refine ⟨w, rest, ?_, hw2, hw3⟩
        rw [litAt_eq_some.mp h1, hw1, litAt_eq_some.mp h3]

theorem readOnlyHit_iff (t : List Char) :
    readOnlyHit t = true ↔ amendedReadOnly t := by
  unfold readOnlyHit amendedReadOnly
  simp only [Bool.or_eq_true, kwThenWs_iff, setSearchPathAt_iff,
    decide_eq_true_eq]
  constructor
  · rintro ((((((((h | h) | h) | h) | h) | h) | h) | h) | h)
    · exact Or.inr (Or.inl ⟨"select", by decide, h⟩)
    · exact Or.inl h
    · exact Or.inr (Or.inl ⟨"with", by decide, h⟩)
    · exact Or.inr (Or.inl ⟨"explain", by decide, h⟩)
    · exact Or.inr (Or.inl ⟨"show", by decide, h⟩)
    · exact Or.inr (Or.inl ⟨"describe", by decide, h⟩)
    · exact Or.inr (Or.inl ⟨"desc", by decide, h⟩)
    · exact Or.inr (Or.inl ⟨"pragma", by decide, h⟩)
    · exact Or.inr (Or.inr h)
  · rintro (h | ⟨kw, hkw, h⟩ | h)
    · exact Or.inl (Or.inl (Or.inl (Or.inl (Or.inl (Or.inl (Or.inl (Or.inr h)))))))
    · simp only [readOnlyKeywords, List.mem_cons,
        List.not_mem_nil, or_false] at hkw
      rcases hkw with rfl | rfl | rfl | rfl | rfl | rfl | rfl
      · exact Or.inl (Or.inl (Or.inl (Or.inl (Or.inl (Or.inl (Or.inl (Or.inl h)))))))
      · exact Or.inl (Or.inl (Or.inl (Or.inl (Or.inl (Or.inl (Or.inr h))))))
      · exact Or.inl (Or.inl (Or.inl (Or.inl (Or.inl (Or.inr h)))))
      · exact Or.inl (Or.inl (Or.inl (Or.inl (Or.inr h))))
      · exact Or.inl (Or.inl (Or.inl (Or.inr h)))
      · exact Or.inl (Or.inl (Or.inr h))
      · exact Or.inl (Or.inr h)
    · exact Or.inr h

theorem amendedReadOnly_nil_false : ¬ amendedReadOnly [] := by
  rintro (h | ⟨kw, hkw, c, rest, h, -⟩ | ⟨w, rest, h, -, -⟩)
  · exact absurd h (by decide)
  · have := congrArg List.length h
    simp only [List.length_nil, List.length_append, List.length_cons] at this
    omega
  · have := congrArg List.length h
    simp only [List.length_nil, List.length_append, List.length_cons] at this
    omega

/-- C4 (amended): `enforceReadOnly q` is null iff the trimmed,
case-folded query is exactly `select`, or starts with one of the
keywords select/with/explain/show/describe/desc/pragma **followed by a
whitespace character**, or starts with `set`, whitespace, `search_path`;
a bare keyword without arguments (e.g. `desc`) is rejected, as is every
other input including the empty string. -/
theorem enforceReadOnly_accepts_iff (q : String) :
    enforceReadOnly q = none ↔ amendedReadOnly (normQuery q) := by
  unfold enforceReadOnly
  by_cases ht : jsTrim q.data = []
  · have hnil : normQuery q = [] := by rw [normQuery, ht]; rfl
    rw [hnil, if_pos ht]
    exact iff_of_false (by simp) amendedReadOnly_nil_false
  · rw [if_neg ht]
    by_cases hr : readOnlyHit (normQuery q) = true
    · rw [if_pos hr]
      exact iff_of_true rfl ((readOnlyHit_iff _).mp hr)
    · rw [if_neg hr]
      exact iff_of_false (by simp) fun ha => hr ((readOnlyHit_iff _).mpr ha)

/-! ### C7 -/

/-- Redaction of a single property entry. -/
def redactProp (kv : String × String) : String × String :=
  if isSecretKey kv.1 then (kv.1, redactionMarker) else kv

theorem redactConnection_eq (c : DBeaverConnection) :
    redactConnection c = { c with properties := c.properties.map redactProp } := rfl

theorem redactProp_insert_secret (m : List (String × String)) (k v w : String)
    (hk : isSecretKey k = true) :
    (insertEntry m k v).map redactProp = (insertEntry m k w).map redactProp := by
  induction m with
  | nil => simp [insertEntry, redactProp, hk]
  | cons kv0 rest ih =>
    obtain ⟨k0, v0⟩ := kv0
    by_cases h0 : k0 = k
    · subst h0
      have hv : insertEntry ((k0, v0) :: rest) k0 v = (k0, v) :: rest := by
        simp [insertEntry]
      have hw2 : insertEntry ((k0, v0) :: rest) k0 w = (k0, w) :: rest := by
        simp [insertEntry]
      rw [hv, hw2, List.map_cons, List.map_cons,
        show redactProp (k0, v) = (k0, redactionMarker) from by simp [redactProp, hk],
        show redactProp (k0, w) = (k0, redactionMarker) from by simp [redactProp, hk]]
    · have hv : insertEntry ((k0, v0) :: rest) k v = (k0, v0) :: insertEntry rest k v := by
        simp [insertEntry, h0]
      have hw2 : insertEntry ((k0, v0) :: rest) k w = (k0, v0) :: insertEntry rest k w := by
        simp [insertEntry, h0]
      rw [hv, hw2, List.map_cons, List.map_cons, ih]

/-- The P8 connection: its password property is the string `secret`. -/
def redactionDemoConn : DBeaverConnection :=
  { id := "c1", name := "prod", driver := "postgresql",
    host := some "db.example.com", database := some "app",
    properties := [("password", "secret"), ("sslmode", "require")] }

theorem redact_withPassword (c : DBeaverConnection) (v w : String) :
    redactConnection (withProp c "password" v) =
      redactConnection (withProp c "password" w) := by
  rw [redactConnection_eq, redactConnection_eq]
  unfold withProp
  simp only
  rw [redactProp_insert_secret c.properties "password" v w (by decide)]

set_option maxRecDepth 200000 in
set_option maxHeartbeats 2000000 in
theorem redactionDemo_info_secret_free :
    strContains (getConnectionInfoText redactionDemoConn) "secret" = false := by
  decide

set_option maxRecDepth 200000 in
set_option maxHeartbeats 2000000 in
theorem redactionDemo_list_secret_free :
    strContains (listConnectionsDetailsText [redactionDemoConn]) "secret" = false := by
  decide

/-- C7 (spec-modelled): the serialized forms returned by the
list-connections and get-connection-info paths are independent of the
password value — the secret cannot occur in them unless it also occurs
in a non-secret field — and in the concrete P8 instance (a connection
whose password is `"secret"`) the string `secret` does not occur
anywhere in the redacted serialized output. -/
theorem redaction_secret_independent :
    (∀ (c : DBeaverConnection) (v w : String),
      getConnectionInfoText (withProp c "password" v) =
        getConnectionInfoText (withProp c "password" w)) ∧
    (∀ (cs : List DBeaverConnection) (v w : String),
      listConnectionsDetailsText (cs.map fun c => withProp c "password" v) =
        listConnectionsDetailsText (cs.map fun c => withProp c "password" w)) ∧
    strContains (getConnectionInfoText redactionDemoConn) "secret" = false ∧
    strContains (listConnectionsDetailsText [redactionDemoConn]) "secret" = false := by
  refine ⟨?_, ?_, ?_, ?_⟩
  · intro c v w
    exact congrArg serializeConnection (redact_withPassword c v w)
  · intro cs v w
    have hmap : (cs.map fun c => withProp c "password" v).map redactConnection =
        (cs.map fun c => withProp c "password" w).map redactConnection := by
      rw [List.map_map, List.map_map]
      exact List.map_congr_left fun c _ => redact_withPassword c v w
    unfold listConnectionsDetailsText
    rw [hmap]
  · exact redactionDemo_info_secret_free
  · exact redactionDemo_list_secret_free

/-! ### C8 (amended) -/

theorem mem_compareTablesSrc {tgtMap : List (String × TableSchema)}
    {l : List (String × TableSchema)} {d : TableDiff}
    (h : d ∈ compareTablesSrc tgtMap l) :
    d.status = .removed ∨ d.status = .modified := by
  induction l with
  | nil => simp [compareTablesSrc] at h
  | cons kv rest ih =>
    obtain ⟨k, st⟩ := kv
    rw [compareTablesSrc] at h
    cases hg : getEntry tgtMap k with
    | none =>
      rw [hg] at h
      rcases List.mem_cons.mp h with rfl | h
      · exact Or.inl rfl
      · exact ih h
    | some tt =>
      rw [hg] at h
      simp only at h
      split at h
      · rcases List.mem_cons.mp h with rfl | h
        · exact Or.inr rfl
        · exact ih h
      · exact ih h

theorem statuses_partition (l : List TableDiff)
    (h : ∀ d ∈ l, d.status = .added ∨ d.status = .removed ∨ d.status = .modified) :
    l.length = (l.filter (·.status = .added)).length +
      (l.filter (·.status = .removed)).length +
      (l.filter (·.status = .modified)).length := by
  induction l with
  | nil => rfl
  | cons d rest ih =>
    have hd := h d (List.mem_cons_self _ _)
    have hrest := fun x hx => h x (List.mem_cons_of_mem _ hx)
    rcases hd with h1 | h1 | h1 <;>
      simp [List.filter_cons, h1, ih hrest] <;> omega

/-- C8 (amended): every `TableDiff` emitted by `compareSchemas` has
status added, removed, or modified — a table present in both inputs
whose compared attributes all agree yields no entry — and the summary
counts exactly those three statuses plus the total number of emitted
differences (there is no count of unchanged tables). -/
theorem compareSchemas_statuses (src tgt : List TableSchema) (a b : String) :
    (∀ d ∈ (compareSchemas src tgt a b).differences,
      d.status = .added ∨ d.status = .removed ∨ d.status = .modified) ∧
    (compareSchemas src tgt a b).summary.tablesAdded =
      ((compareSchemas src tgt a b).differences.filter (·.status = .added)).length ∧
    (compareSchemas src tgt a b).summary.tablesRemoved =
      ((compareSchemas src tgt a b).differences.filter (·.status = .removed)).length ∧
    (compareSchemas src tgt a b).summary.tablesModified =
      ((compareSchemas src tgt a b).differences.filter (·.status = .modified)).length ∧
    (compareSchemas src tgt a b).summary.totalDifferences =
      ((compareSchemas src tgt a b).differences.filter (·.status = .added)).length +
      ((compareSchemas src tgt a b).differences.filter (·.status = .removed)).length +
      ((compareSchemas src tgt a b).differences.filter (·.status = .modified)).length := by
  have hmem : ∀ d ∈ (compareSchemas src tgt a b).differences,
      d.status = .added ∨ d.status = .removed ∨ d.status = .modified := by
    intro d hd
    unfold compareSchemas at hd
    simp only at hd
    rcases List.mem_append.mp hd with hd | hd
    · rcases mem_compareTablesSrc hd with h | h
      · exact Or.inr (Or.inl h)
      · exact Or.inr (Or.inr h)
    · rcases List.mem_map.mp hd with ⟨kv, -, rfl⟩
      exact Or.inl rfl
  refine ⟨hmem, rfl, rfl, rfl, ?_⟩
  exact statuses_partition _ hmem

/-! ### Association-list (JS `Map`) lemmas -/

theorem getEntry_removeEntry_self {α : Type} (m : List (String × α)) (k : String) :
    getEntry (removeEntry m k) k = none := by
  induction m with
  | nil => rfl
  | cons kv rest ih =>
    by_cases h : kv.1 = k
    · simpa [removeEntry, h] using ih
    · simpa [removeEntry, getEntry, h] using ih

theorem getEntry_removeEntry_ne {α : Type} (m : List (String × α)) {k j : String}
    (h : j ≠ k) : getEntry (removeEntry m k) j = getEntry m j := by
  induction m with
  | nil => rfl
  | cons kv rest ih =>
    by_cases hk : kv.1 = k
    · have hne2 : ¬ kv.1 = j := by
        rw [hk]
        exact fun hj => h hj.symm
      rw [show removeEntry (kv :: rest) k = removeEntry rest k by
        simp [removeEntry, hk]]
      rw [ih]
      exact (by simp [getEntry, hne2] :
        getEntry (kv :: rest) j = getEntry rest j).symm
    · rw [show removeEntry (kv :: rest) k = kv :: removeEntry rest k by
        simp [removeEntry, hk]]
      by_cases hj : kv.1 = j
      · simp [getEntry, hj]
      · simp [getEntry, hj, ih]

theorem getEntry_isSome_of_mem {α : Type} {m : List (String × α)} {k : String}
    {v : α} (h : (k, v) ∈ m) : (getEntry m k).isSome = true := by
  induction m with
  | nil => cases h
  | cons kv rest ih =>
    rcases List.mem_cons.mp h with rfl | h
    · simp [getEntry]
    · by_cases hk : kv.1 = k
      · simp [getEntry, hk]
      · simp [getEntry, hk, ih h]

theorem getEntry_of_nodup {α : Type} {m : List (String × α)} {k : String} {v : α}
    (hnd : (m.map Prod.fst).Nodup) (h : (k, v) ∈ m) : getEntry m k = some v := by
  induction m with
  | nil => cases h
  | cons kv rest ih =>
    rcases List.mem_cons.mp h with rfl | h
    · simp [getEntry]
    · have hk : kv.1 ≠ k := by
        intro hkk
        have : k ∈ rest.map Prod.fst := List.mem_map.mpr ⟨(k, v), h, rfl⟩
        rw [List.map_cons, List.nodup_cons] at hnd
        exact hnd.1 (hkk ▸ this)
      rw [getEntry, if_neg hk]
      exact ih (List.nodup_cons.mp (by simpa using hnd)).2 h

theorem mem_insertEntry {α : Type} {m : List (String × α)} {k : String} {v : α}
    {kv : String × α} (h : kv ∈ insertEntry m k v) : kv ∈ m ∨ kv = (k, v) := by
  induction m with
  | nil => simpa [insertEntry] using h
  | cons kv0 rest ih =>
    by_cases h0 : kv0.1 = k
    · rw [show insertEntry (kv0 :: rest) k v = (kv0.1, v) :: rest by
        simp [insertEntry, h0]] at h
      rcases List.mem_cons.mp h with rfl | h
      · exact Or.inr (by rw [h0])
      · exact Or.inl (List.mem_cons_of_mem _ h)
    · rw [show insertEntry (kv0 :: rest) k v = kv0 :: insertEntry rest k v by
        simp [insertEntry, h0]] at h
      rcases List.mem_cons.mp h with rfl | h
      · exact Or.inl (List.mem_cons_self _ _)
      · rcases ih h with h | h
        · exact Or.inl (List.mem_cons_of_mem _ h)
        · exact Or.inr h

theorem hasKey_insertEntry {α : Type} (m : List (String × α)) (k j : String)
    (v : α) : hasKey (insertEntry m k v) j = (hasKey m j || j = k) := by
  induction m with
  | nil =>
    by_cases hj : k = j <;>
      simp [insertEntry, hasKey, getEntry, hj, eq_comm]
  | cons kv0 rest ih =>
    by_cases h0 : kv0.1 = k
    · rw [show insertEntry (kv0 :: rest) k v = (kv0.1, v) :: rest by
        simp [insertEntry, h0]]
      by_cases hj : kv0.1 = j
      · simp [hasKey, getEntry, hj]
      · have : ¬ j = k := fun hh => hj (hh ▸ h0)
        simp [hasKey, getEntry, hj, this]
    · rw [show insertEntry (kv0 :: rest) k v = kv0 :: insertEntry rest k v by
        simp [insertEntry, h0]]
      by_cases hj : kv0.1 = j
      · simp [hasKey, getEntry, hj]
      · simp only [hasKey, getEntry, if_neg hj]
        exact ih

theorem mem_foldl_insert {α : Type} (l : List (String × α)) :
    ∀ (acc : List (String × α)) (kv : String × α),
      kv ∈ l.foldl (fun m p => insertEntry m p.1 p.2) acc → kv ∈ acc ∨ kv ∈ l := by
  induction l with
  | nil => intro acc kv h; exact Or.inl h
  | cons p rest ih =>
    intro acc kv h
    rcases ih (insertEntry acc p.1 p.2) kv h with h2 | h2
    · rcases mem_insertEntry h2 with h3 | h3
      · exact Or.inl h3
      · right
        rw [h3]
        exact List.mem_cons_self _ _
    · exact Or.inr (List.mem_cons_of_mem _ h2)

theorem mem_mapOfList {α : Type} {l : List (String × α)} {kv : String × α}
    (h : kv ∈ mapOfList l) : kv ∈ l := by
  rcases mem_foldl_insert l [] kv h with h2 | h2
  · cases h2
  · exact h2

theorem hasKey_foldl_insert {α : Type} (l : List (String × α)) :
    ∀ (acc : List (String × α)) (k : String),
      hasKey acc k = true ∨ (∃ v, (k, v) ∈ l) →
      hasKey (l.foldl (fun m p => insertEntry m p.1 p.2) acc) k = true := by
  induction l with
  | nil =>
    intro acc k h
    rcases h with h | ⟨v, hv⟩
    · exact h
    · cases hv
  | cons p rest ih =>
    intro acc k h
    apply ih
    rcases h with h | ⟨v, hv⟩
    · left
      rw [hasKey_insertEntry, h, Bool.true_or]
    · rcases List.mem_cons.mp hv with heq | hv2
      · left
        rw [hasKey_insertEntry]
        have hkp : k = p.1 := congrArg Prod.fst heq
        simp [hkp]
      · exact Or.inr ⟨v, hv2⟩

theorem hasKey_mapOfList_of_mem {α : Type} {l : List (String × α)} {k : String}
    {v : α} (h : (k, v) ∈ l) : hasKey (mapOfList l) k = true :=
  hasKey_foldl_insert l [] k (Or.inr ⟨v, h⟩)

/-! ### C6 -/

/-- The registry state left by `rollbackTransaction` is the original one
(lookup/status failure) or the original one minus the transaction. -/
theorem rollbackTransaction_state (st : TMState) (id : String) (b : Bool) :
    (rollbackTransaction st id b).2.transactions = st.transactions ∨
    (rollbackTransaction st id b).2.transactions = removeEntry st.transactions id := by
  unfold rollbackTransaction
  split
  · exact Or.inl rfl
  · split
    · exact Or.inl rfl
    · split
      · exact Or.inr rfl
      · exact Or.inr rfl

/-- The sweep count is the number of stale entries in the iterated list,
independently of the registry state and of rollback success. -/
theorem cleanupLoop_count (now maxAgeMs : Int) (ok : String → Bool)
    (l : List (String × ActiveTransaction)) :
    ∀ st : TMState, (cleanupLoop now maxAgeMs ok l st).1 =
      (l.filter fun kv =>
        decide (now - kv.2.transaction.startedAt > maxAgeMs)).length := by
  induction l with
  | nil => intro st; rfl
  | cons kv rest ih =>
    intro st
    obtain ⟨id, active⟩ := kv
    by_cases hst : now - active.transaction.startedAt > maxAgeMs
    · rw [cleanupLoop, if_pos hst]
      cases hr : rollbackTransaction st id (ok id) with
      | mk res st2 =>
        cases res with
        | ok r => simp [ih, List.filter_cons, hst]
        | error e => simp [ih, List.filter_cons, hst]
    · rw [cleanupLoop, if_neg hst]
      simp [ih, List.filter_cons, hst]

/-- The sweep never adds a key to the registry. -/
theorem cleanupLoop_none_preserved (now maxAgeMs : Int) (ok : String → Bool)
    (l : List (String × ActiveTransaction)) :
    ∀ (st : TMState) (id : String), getEntry st.transactions id = none →
      getEntry (cleanupLoop now maxAgeMs ok l st).2.transactions id = none := by
  induction l with
  | nil => intro st id h; exact h
  | cons kv rest ih =>
    intro st id h
    obtain ⟨id0, active⟩ := kv
    by_cases hst : now - active.transaction.startedAt > maxAgeMs
    · rw [cleanupLoop, if_pos hst]
      have hstate := rollbackTransaction_state st id0 (ok id0)
      cases hr : rollbackTransaction st id0 (ok id0) with
      | mk res st2 =>
        rw [hr] at hstate
        simp only at hstate
        have h2 : getEntry st2.transactions id = none := by
          rcases hstate with h2 | h2
          · rw [h2]; exact h
          · rw [h2]
            by_cases hid : id = id0
            · rw [hid]; exact getEntry_removeEntry_self _ _
            · rw [getEntry_removeEntry_ne _ hid]; exact h
        cases res with
        | ok r => exact ih st2 id h2
        | error e =>
          apply ih _ id
          simp only
          by_cases hid : id = id0
          · rw [hid]; exact getEntry_removeEntry_self _ _
          · rw [getEntry_removeEntry_ne _ hid]; exact h2
    · rw [cleanupLoop, if_neg hst]
      exact ih st id h

/-- If `rollbackTransaction` returns successfully the registry entry has
been removed. -/
theorem rollbackTransaction_ok_state {st : TMState} {id : String} {b : Bool}
    {r : TransactionResult} {st2 : TMState}
    (h : rollbackTransaction st id b = (.ok r, st2)) :
    st2.transactions = removeEntry st.transactions id := by
  unfold rollbackTransaction at h
  split at h
  · injection h with h1 h2
    exact Except.noConfusion h1
  · split at h
    · injection h with h1 h2
      exact Except.noConfusion h1
    · split at h
      · injection h with h1 h2
        rw [← h2]
      · injection h with h1 h2
        exact Except.noConfusion h1

/-- A stale entry of the iterated list is absent from the final
registry, whether or not its rollback succeeded. -/
theorem cleanupLoop_stale_removed (now maxAgeMs : Int) (ok : String → Bool)
    (l : List (String × ActiveTransaction)) :
    ∀ (st : TMState) (id : String) (a : ActiveTransaction), (id, a) ∈ l →
      now - a.transaction.startedAt > maxAgeMs →
      getEntry (cleanupLoop now maxAgeMs ok l st).2.transactions id = none := by
  induction l with
  | nil => intro st id a h _; cases h
  | cons kv rest ih =>
    intro st id a hmem hstale
    obtain ⟨id0, active⟩ := kv
    rcases List.mem_cons.mp hmem with heq | hmem2
    · injection heq with h1 h2
      subst h1
      subst h2
      rw [cleanupLoop, if_pos hstale]
      cases hr : rollbackTransaction st id (ok id) with
      | mk res st2 =>
        cases res with
        | ok r =>
          apply cleanupLoop_none_preserved
          rw [rollbackTransaction_ok_state hr]
          exact getEntry_removeEntry_self _ _
        | error e =>
          apply cleanupLoop_none_preserved
          exact getEntry_removeEntry_self _ _
    · by_cases hst0 : now - active.transaction.startedAt > maxAgeMs
      · rw [cleanupLoop, if_pos hst0]
        cases hr : rollbackTransaction st id0 (ok id0) with
        | mk res st2 =>
          cases res with
          | ok r => exact ih st2 id a hmem2 hstale
          | error e => exact ih _ id a hmem2 hstale
      · rw [cleanupLoop, if_neg hst0]
        exact ih st id a hmem2 hstale

/-- An id that occurs in the iterated list only with non-stale entries
keeps its registry binding through the sweep. -/
theorem cleanupLoop_fresh_preserved (now maxAgeMs : Int) (ok : String → Bool)
    (l : List (String × ActiveTransaction)) :
    ∀ (st : TMState) (id : String),
      (∀ a2 : ActiveTransaction, (id, a2) ∈ l →
        ¬ now - a2.transaction.startedAt > maxAgeMs) →
      getEntry (cleanupLoop now maxAgeMs ok l st).2.transactions id =
        getEntry st.transactions id := by
  induction l with
  | nil => intro st id _; rfl
  | cons kv rest ih =>
    intro st id hfresh
    obtain ⟨id0, active⟩ := kv
    have hrest : ∀ a2 : ActiveTransaction, (id, a2) ∈ rest →
        ¬ now - a2.transaction.startedAt > maxAgeMs :=
      fun a2 h2 => hfresh a2 (List.mem_cons_of_mem _ h2)
    by_cases hst0 : now - active.transaction.startedAt > maxAgeMs
    · have hne : id ≠ id0 := by
        intro hid
        exact hfresh active (hid ▸ List.mem_cons_self _ _) hst0
      rw [cleanupLoop, if_pos hst0]
      cases hr : rollbackTransaction st id0 (ok id0) with
      | mk res st2 =>
        have hstate := rollbackTransaction_state st id0 (ok id0)
        rw [hr] at hstate
        simp only at hstate
        cases res with
        | ok r =>
          rw [ih st2 id hrest]
          rcases hstate with h2 | h2
          · rw [h2]
          · rw [h2, getEntry_removeEntry_ne _ hne]
        | error e =>
          rw [ih _ id hrest]
          simp only
          rw [getEntry_removeEntry_ne _ hne]
          rcases hstate with h2 | h2
          · rw [h2]
          · rw [h2, getEntry_removeEntry_ne _ hne]
    · rw [cleanupLoop, if_neg hst0]
      exact ih st id hrest

/-- C6: every registry transaction strictly older than the threshold is
removed by `cleanupStaleTransactions` and counted as cleaned, even when
the underlying rollback call fails; transactions at or below the
threshold keep their registry binding untouched. -/
theorem cleanupStale_removes_and_counts (st : TMState) (now maxAgeMs : Int)
    (ok : String → Bool)
    (hnd : (st.transactions.map Prod.fst).Nodup) :
    (cleanupStaleTransactions st now ok maxAgeMs).1 =
      (st.transactions.filter fun kv =>
        decide (now - kv.2.transaction.startedAt > maxAgeMs)).length ∧
    (∀ id a, (id, a) ∈ st.transactions →
      now - a.transaction.startedAt > maxAgeMs →
      getEntry (cleanupStaleTransactions st now ok maxAgeMs).2.transactions id =
        none) ∧
    (∀ id a, (id, a) ∈ st.transactions →
      now - a.transaction.startedAt ≤ maxAgeMs →
      getEntry (cleanupStaleTransactions st now ok maxAgeMs).2.transactions id =
        some a) := by
  refine ⟨cleanupLoop_count now maxAgeMs ok st.transactions st, ?_, ?_⟩
  · intro id a hmem hstale
    exact cleanupLoop_stale_removed now maxAgeMs ok st.transactions st id a hmem hstale
  · intro id a hmem hage
    have huniq : ∀ a2 : ActiveTransaction, (id, a2) ∈ st.transactions → a2 = a := by
      intro a2 h2
      have e1 := getEntry_of_nodup hnd h2
      have e2 := getEntry_of_nodup hnd hmem
      rw [e1] at e2
      exact (Option.some.injEq _ _ ▸ e2)
    have hfresh : ∀ a2 : ActiveTransaction, (id, a2) ∈ st.transactions →
        ¬ now - a2.transaction.startedAt > maxAgeMs := by
      intro a2 h2
      rw [huniq a2 h2]
      exact not_lt.mpr hage
    rw [show (cleanupStaleTransactions st now ok maxAgeMs).2 =
      (cleanupLoop now maxAgeMs ok st.transactions st).2 from rfl]
    rw [cleanupLoop_fresh_preserved now maxAgeMs ok st.transactions st id hfresh]
    exact getEntry_of_nodup hnd hmem

/-- A stale and a fresh transaction for the C6 witness. -/
def staleDemoA : ActiveTransaction :=
  { transaction := { id := "t1", connectionId := "c1", startedAt := 0,
                     status := .active }
    type := .postgres }

def freshDemoA : ActiveTransaction :=
  { transaction := { id := "t2", connectionId := "c1", startedAt := 3600000,
                     status := .active }
    type := .postgres }

def demoRegistry : TMState :=
  ⟨[("t1", staleDemoA), ("t2", freshDemoA)]⟩

/-- Witness for C6: at time 3600001 with the default 1h threshold, the
sweep — with every backend rollback failing — still removes and counts
the stale transaction and leaves the fresh one untouched. -/
theorem cleanupStale_removes_and_counts_witness :
    ((demoRegistry.transactions.map Prod.fst).Nodup ∧
     ("t1", staleDemoA) ∈ demoRegistry.transactions ∧
     (3600001 : Int) - staleDemoA.transaction.startedAt > 3600000 ∧
     ("t2", freshDemoA) ∈ demoRegistry.transactions ∧
     (3600001 : Int) - freshDemoA.transaction.startedAt ≤ 3600000) ∧
    ((cleanupStaleTransactions demoRegistry 3600001 (fun _ => false) 3600000).1 =
      1 ∧
     getEntry (cleanupStaleTransactions demoRegistry 3600001
       (fun _ => false) 3600000).2.transactions "t1" = none ∧
     getEntry (cleanupStaleTransactions demoRegistry 3600001
       (fun _ => false) 3600000).2.transactions "t2" = some freshDemoA) := by
  have T := cleanupStale_removes_and_counts demoRegistry 3600001 3600000
    (fun _ => false) (by decide)
  refine ⟨⟨by decide, by decide, by decide, by decide, by decide⟩, ?_, ?_, ?_⟩
  · rw [T.1]
    decide
  · exact T.2.1 "t1" staleDemoA (by decide) (by decide)
  · exact T.2.2 "t2" freshDemoA (by decide) (by decide)

/-! ### C5 -/

theorem getEntry_insertEntry_self {α : Type} (m : List (String × α)) (k : String)
    (v : α) : getEntry (insertEntry m k v) k = some v := by
  induction m with
  | nil => simp [insertEntry, getEntry]
  | cons kv rest ih =>
    by_cases h0 : kv.1 = k
    · rw [show insertEntry (kv :: rest) k v = (kv.1, v) :: rest by
        simp [insertEntry, h0]]
      simp [getEntry, h0]
    · rw [show insertEntry (kv :: rest) k v = kv :: insertEntry rest k v by
        simp [insertEntry, h0]]
      simp [getEntry, h0, ih]

/-- A successful `beginTransaction` yields exactly the started result
and registers exactly the fresh active transaction (for one of the three
pooled client kinds). -/
theorem beginTransaction_ok_inversion {st : TMState} {conn : DBeaverConnection}
    {now : Int} {nonce : String} {poolOk beginOk : Bool}
    {res : TransactionResult} {st1 : TMState}
    (h : beginTransaction st conn now nonce poolOk beginOk = (.ok res, st1)) :
    ∃ k : ClientKind,
      res = { transactionId := generateTransactionId now nonce,
              status := "started",
              message := "Transaction " ++ generateTransactionId now nonce ++
                " started successfully" } ∧
      st1 = ⟨insertEntry st.transactions (generateTransactionId now nonce)
              { transaction := { id := generateTransactionId now nonce,
                                 connectionId := conn.id, startedAt := now,
                                 status := .active }
                type := k }⟩ := by
  unfold beginTransaction at h
  split at h
  · exact absurd (congrArg Prod.fst h) (by simp)
  · split at h
    · unfold beginRegister at h
      split at h
      · exact absurd (congrArg Prod.fst h) (by simp)
      · injection h with h1 h2
        injection h1 with h1
        exact ⟨.postgres, h1.symm, h2.symm⟩
    · split at h
      · unfold beginRegister at h
        split at h
        · exact absurd (congrArg Prod.fst h) (by simp)
        · injection h with h1 h2
          injection h1 with h1
          exact ⟨.mysql, h1.symm, h2.symm⟩
      · split at h
        · unfold beginRegister at h
          split at h
          · exact absurd (congrArg Prod.fst h) (by simp)
          · injection h with h1 h2
            injection h1 with h1
            exact ⟨.mssql, h1.symm, h2.symm⟩
        · exact absurd (congrArg Prod.fst h) (by simp)

/-- First commit and first rollback on an active registered transaction
succeed and remove the entry; afterwards both operations raise a
not-found error (never a no-op), whatever the backend oracle says. -/
theorem commit_rollback_once (st1 : TMState) (id : String)
    (a : ActiveTransaction) (hget : getEntry st1.transactions id = some a)
    (hactive : a.transaction.status = .active) :
    (∃ r2, commitTransaction st1 id true =
      (.ok r2, ⟨removeEntry st1.transactions id⟩) ∧ r2.status = "committed") ∧
    (∃ r3, rollbackTransaction st1 id true =
      (.ok r3, ⟨removeEntry st1.transactions id⟩) ∧ r3.status = "rolled_back") ∧
    (∀ b, ∃ e, commitTransaction ⟨removeEntry st1.transactions id⟩ id b =
      (.error e, ⟨removeEntry st1.transactions id⟩)) ∧
    (∀ b, ∃ e, rollbackTransaction ⟨removeEntry st1.transactions id⟩ id b =
      (.error e, ⟨removeEntry st1.transactions id⟩)) := by
  have hnn : ¬ a.transaction.status ≠ TxStatus.active := by
    rw [hactive]
    exact fun hh => hh rfl
  refine ⟨⟨{ transactionId := id, status := "committed",
             message := "Transaction " ++ id ++ " committed successfully" },
           ?_, rfl⟩,
          ⟨{ transactionId := id, status := "rolled_back",
             message := "Transaction " ++ id ++ " rolled back successfully" },
           ?_, rfl⟩, ?_, ?_⟩
  · simp only [commitTransaction, hget]
    rw [if_neg hnn, if_pos trivial]
  · simp only [rollbackTransaction, hget]
    rw [if_neg hnn, if_pos trivial]
  · intro b
    refine ⟨"Transaction " ++ id ++ " not found", ?_⟩
    simp only [commitTransaction,
      show getEntry (⟨removeEntry st1.transactions id⟩ : TMState).transactions id =
        none from getEntry_removeEntry_self _ _]
  · intro b
    refine ⟨"Transaction " ++ id ++ " not found", ?_⟩
    simp only [rollbackTransaction,
      show getEntry (⟨removeEntry st1.transactions id⟩ : TMState).transactions id =
        none from getEntry_removeEntry_self _ _]

/-- C5: the transaction state machine is strictly linear.  When the
generated id is previously unseen in the registry (the freshness the
timestamp+random generator is relied upon for, here a hypothesis) and
`beginTransaction` succeeds, the result carries that fresh id with
status `"started"` and an active registry entry; the first
`commitTransaction` (or `rollbackTransaction`) with a successful backend
call succeeds exactly once and removes the entry; every subsequent
commit or rollback on the same id raises a not-found error rather than
being a no-op. -/
theorem transaction_lifecycle_linear
    (st : TMState) (conn : DBeaverConnection) (now : Int) (nonce : String)
    (res : TransactionResult) (st1 : TMState)
    (hfresh : getEntry st.transactions (generateTransactionId now nonce) = none)
    (hbegin : beginTransaction st conn now nonce true true = (.ok res, st1)) :
    res.transactionId = generateTransactionId now nonce ∧
    res.status = "started" ∧
    getEntry st.transactions res.transactionId = none ∧
    (∃ a, getEntry st1.transactions res.transactionId = some a ∧
      a.transaction.status = .active ∧
      a.transaction.connectionId = conn.id ∧
      a.transaction.startedAt = now) ∧
    (∃ r2, commitTransaction st1 res.transactionId true =
      (.ok r2, ⟨removeEntry st1.transactions res.transactionId⟩) ∧
      r2.status = "committed") ∧
    (∃ r3, rollbackTransaction st1 res.transactionId true =
      (.ok r3, ⟨removeEntry st1.transactions res.transactionId⟩) ∧
      r3.status = "rolled_back") ∧
    (∀ b, ∃ e, commitTransaction
      ⟨removeEntry st1.transactions res.transactionId⟩ res.transactionId b =
      (.error e, ⟨removeEntry st1.transactions res.transactionId⟩)) ∧
    (∀ b, ∃ e, rollbackTransaction
      ⟨removeEntry st1.transactions res.transactionId⟩ res.transactionId b =
      (.error e, ⟨removeEntry st1.transactions res.transactionId⟩)) := by
  obtain ⟨k, rfl, rfl⟩ := beginTransaction_ok_inversion hbegin
  refine ⟨rfl, rfl, hfresh, ⟨_, getEntry_insertEntry_self _ _ _, rfl, rfl, rfl⟩, ?_⟩
  exact commit_rollback_once _ _ _ (getEntry_insertEntry_self _ _ _) rfl

/-- A PostgreSQL connection descriptor for the C5 witness. -/
def pgDemoConn : DBeaverConnection :=
  { id := "c1", name := "db1", driver := "postgresql" }

def c5Res : TransactionResult :=
  { transactionId := "txn_0_ab", status := "started",
    message := "Transaction txn_0_ab started successfully" }

def c5St1 : TMState :=
  ⟨[("txn_0_ab",
     { transaction := { id := "txn_0_ab", connectionId := "c1", startedAt := 0,
                        status := .active }
       type := .postgres })]⟩

/-- Witness for C5 at a concrete begin/commit/rollback run on an empty
registry. -/
theorem transaction_lifecycle_linear_witness :
    (getEntry (⟨[]⟩ : TMState).transactions (generateTransactionId 0 "ab") =
      none ∧
     beginTransaction ⟨[]⟩ pgDemoConn 0 "ab" true true = (.ok c5Res, c5St1)) ∧
    (c5Res.transactionId = generateTransactionId 0 "ab" ∧
     c5Res.status = "started" ∧
     getEntry (⟨[]⟩ : TMState).transactions c5Res.transactionId = none ∧
     (∃ a, getEntry c5St1.transactions c5Res.transactionId = some a ∧
       a.transaction.status = .active ∧
       a.transaction.connectionId = pgDemoConn.id ∧
       a.transaction.startedAt = 0) ∧
     (∃ r2, commitTransaction c5St1 c5Res.transactionId true =
       (.ok r2, ⟨removeEntry c5St1.transactions c5Res.transactionId⟩) ∧
       r2.status = "committed") ∧
     (∃ r3, rollbackTransaction c5St1 c5Res.transactionId true =
       (.ok r3, ⟨removeEntry c5St1.transactions c5Res.transactionId⟩) ∧
       r3.status = "rolled_back") ∧
     (∀ b, ∃ e, commitTransaction
       ⟨removeEntry c5St1.transactions c5Res.transactionId⟩
       c5Res.transactionId b =
       (.error e, ⟨removeEntry c5St1.transactions c5Res.transactionId⟩)) ∧
     (∀ b, ∃ e, rollbackTransaction
       ⟨removeEntry c5St1.transactions c5Res.transactionId⟩
       c5Res.transactionId b =
       (.error e, ⟨removeEntry c5St1.transactions c5Res.transactionId⟩))) := by
  have hf : getEntry (⟨[]⟩ : TMState).transactions
      (generateTransactionId 0 "ab") = none := rfl
  have hb : beginTransaction ⟨[]⟩ pgDemoConn 0 "ab" true true =
      (.ok c5Res, c5St1) := by rfl
  exact ⟨⟨hf, hb⟩,
    transaction_lifecycle_linear ⟨[]⟩ pgDemoConn 0 "ab" c5Res c5St1 hf hb⟩

/-! ### C10 -/

/-- A column map whose keys are the lowercased column names (the shape
`parseTableSchema` produces). -/
def lowerNamedCols (m : List (String × ColumnSchema)) : Prop :=
  ∀ kv ∈ m, kv.1 = strLower kv.2.name

theorem getEntry_ne_none_of_hasKey {α : Type} {m : List (String × α)} {k : String}
    (h : hasKey m k = true) : getEntry m k ≠ none := by
  intro hn
  unfold hasKey at h
  rw [hn] at h
  cases h

theorem compareTablesSrc_removed {tgtMap : List (String × TableSchema)}
    {l : List (String × TableSchema)} {d : TableDiff}
    (h : d ∈ compareTablesSrc tgtMap l) (hrem : d.status = .removed) :
    ∃ k ts, (k, ts) ∈ l ∧ getEntry tgtMap k = none ∧ d.tableName = ts.tableName := by
  induction l with
  | nil => simp [compareTablesSrc] at h
  | cons kv rest ih =>
    obtain ⟨k, st⟩ := kv
    rw [compareTablesSrc] at h
    cases hg : getEntry tgtMap k with
    | none =>
      rw [hg] at h
      rcases List.mem_cons.mp h with rfl | h2
      · exact ⟨k, st, List.mem_cons_self _ _, hg, rfl⟩
      · obtain ⟨k2, ts2, hm, hn, he⟩ := ih h2
        exact ⟨k2, ts2, List.mem_cons_of_mem _ hm, hn, he⟩
    | some tt =>
      rw [hg] at h
      simp only at h
      split at h
      · rcases List.mem_cons.mp h with rfl | h2
        · simp at hrem
        · obtain ⟨k2, ts2, hm, hn, he⟩ := ih h2
          exact ⟨k2, ts2, List.mem_cons_of_mem _ hm, hn, he⟩
      · obtain ⟨k2, ts2, hm, hn, he⟩ := ih h
        exact ⟨k2, ts2, List.mem_cons_of_mem _ hm, hn, he⟩

theorem mem_compareColumnsSrc {tgt : List (String × ColumnSchema)}
    {l : List (String × ColumnSchema)} {cd : ColumnDiff}
    (h : cd ∈ compareColumnsSrc tgt l) :
    cd.status = .removed ∨ cd.status = .modified := by
  induction l with
  | nil => simp [compareColumnsSrc] at h
  | cons kv rest ih =>
    obtain ⟨k, sc⟩ := kv
    rw [compareColumnsSrc] at h
    cases hg : getEntry tgt k with
    | none =>
      rw [hg] at h
      rcases List.mem_cons.mp h with rfl | h2
      · exact Or.inl rfl
      · exact ih h2
    | some tc =>
      rw [hg] at h
      simp only at h
      split at h
      · rcases List.mem_cons.mp h with rfl | h2
        · exact Or.inr rfl
        · exact ih h2
      · exact ih h

theorem compareColumnsSrc_removed {tgt : List (String × ColumnSchema)}
    {l : List (String × ColumnSchema)} {cd : ColumnDiff}
    (h : cd ∈ compareColumnsSrc tgt l) (hrem : cd.status = .removed) :
    ∃ k c, (k, c) ∈ l ∧ getEntry tgt k = none ∧ cd.columnName = c.name := by
  induction l with
  | nil => simp [compareColumnsSrc] at h
  | cons kv rest ih =>
    obtain ⟨k, sc⟩ := kv
    rw [compareColumnsSrc] at h
    cases hg : getEntry tgt k with
    | none =>
      rw [hg] at h
      rcases List.mem_cons.mp h with rfl | h2
      · exact ⟨k, sc, List.mem_cons_self _ _, hg, rfl⟩
      · obtain ⟨k2, c2, hm, hn, he⟩ := ih h2
        exact ⟨k2, c2, List.mem_cons_of_mem _ hm, hn, he⟩
    | some tc =>
      rw [hg] at h
      simp only at h
      split at h
      · rcases List.mem_cons.mp h with rfl | h2
        · simp at hrem
        · obtain ⟨k2, c2, hm, hn, he⟩ := ih h2
          exact ⟨k2, c2, List.mem_cons_of_mem _ hm, hn, he⟩
      · obtain ⟨k2, c2, hm, hn, he⟩ := ih h
        exact ⟨k2, c2, List.mem_cons_of_mem _ hm, hn, he⟩

/-- C10: `compareSchemas` matches tables by lowercased name — a table
present (up to case) in both inputs is never reported as added or
removed; `compareColumns` does the same for column maps keyed by
lowercased column names; and `parseTableSchema` produces exactly such
lowercase-keyed column maps. -/
theorem compareSchemas_case_insensitive :
    (∀ (src tgt : List TableSchema) (cs ct : String) (s t : TableSchema),
      s ∈ src → t ∈ tgt → strLower s.tableName = strLower t.tableName →
      ∀ d ∈ (compareSchemas src tgt cs ct).differences,
        (d.status = .added ∨ d.status = .removed) →
        strLower d.tableName ≠ strLower s.tableName) ∧
    (∀ (m1 m2 : List (String × ColumnSchema)),
      lowerNamedCols m1 → lowerNamedCols m2 →
      ∀ (k1 k2 : String) (c1 c2 : ColumnSchema),
        (k1, c1) ∈ m1 → (k2, c2) ∈ m2 → strLower c1.name = strLower c2.name →
        ∀ cd ∈ compareColumns m1 m2,
          (cd.status = .added ∨ cd.status = .removed) →
          strLower cd.columnName ≠ strLower c1.name) ∧
    (∀ (tn : String) (rows : List (List String)) (cols : List String),
      lowerNamedCols (parseTableSchema tn rows cols).columns) := by
  refine ⟨?_, ?_, ?_⟩
  · intro src tgt cs ct s t hs ht hname d hd hstat heq
    have hlowSrc : ∀ kv ∈ mapOfList (src.map fun t0 => (strLower t0.tableName, t0)),
        kv.1 = strLower kv.2.tableName := by
      intro kv hkv
      obtain ⟨t0, -, rfl⟩ := List.mem_map.mp (mem_mapOfList hkv)
      rfl
    have hlowTgt : ∀ kv ∈ mapOfList (tgt.map fun t0 => (strLower t0.tableName, t0)),
        kv.1 = strLower kv.2.tableName := by
      intro kv hkv
      obtain ⟨t0, -, rfl⟩ := List.mem_map.mp (mem_mapOfList hkv)
      rfl
    have hkeyTgt : hasKey (mapOfList (tgt.map fun t0 => (strLower t0.tableName, t0)))
        (strLower t.tableName) = true :=
      hasKey_mapOfList_of_mem (List.mem_map.mpr ⟨t, ht, rfl⟩)
    have hkeySrc : hasKey (mapOfList (src.map fun t0 => (strLower t0.tableName, t0)))
        (strLower s.tableName) = true :=
      hasKey_mapOfList_of_mem (List.mem_map.mpr ⟨s, hs, rfl⟩)
    unfold compareSchemas at hd
    simp only at hd
    rcases List.mem_append.mp hd with hd | hd
    · rcases hstat with hstat | hstat
      · rcases mem_compareTablesSrc hd with h2 | h2 <;>
          (rw [hstat] at h2; cases h2)
      · obtain ⟨k, ts, hm, hn, he⟩ := compareTablesSrc_removed hd hstat
        have hk : k = strLower ts.tableName := hlowSrc (k, ts) hm
        have hk2 : k = strLower t.tableName := by
          rw [hk, ← he, heq, hname]
        rw [hk2] at hn
        exact getEntry_ne_none_of_hasKey hkeyTgt hn
    · obtain ⟨kv, hkvf, rfl⟩ := List.mem_map.mp hd
      obtain ⟨hkvm, hnotk⟩ := List.mem_filter.mp hkvf
      rcases hstat with hstat | hstat
      · have hk : kv.1 = strLower kv.2.tableName := hlowTgt kv hkvm
        have heq2 : strLower kv.2.tableName = strLower s.tableName := heq
        rw [hk, heq2, hkeySrc] at hnotk
        cases hnotk
      · simp at hstat
  · intro m1 m2 hlow1 hlow2 k1 k2 c1 c2 hm1 hm2 hname cd hcd hstat heq
    unfold compareColumns at hcd
    rcases List.mem_append.mp hcd with hcd | hcd
    · rcases hstat with hstat | hstat
      · rcases mem_compareColumnsSrc hcd with h2 | h2 <;>
          (rw [hstat] at h2; cases h2)
      · obtain ⟨k, c, hm, hn, he⟩ := compareColumnsSrc_removed hcd hstat
        have hk : k = strLower c.name := hlow1 (k, c) hm
        have hk2 : k = k2 := by
          rw [hk, ← he, heq, hname, ← hlow2 (k2, c2) hm2]
        rw [hk2] at hn
        exact getEntry_ne_none_of_hasKey (getEntry_isSome_of_mem hm2) hn
    · obtain ⟨kv, hkvf, rfl⟩ := List.mem_map.mp hcd
      obtain ⟨hkvm, hnotk⟩ := List.mem_filter.mp hkvf
      rcases hstat with hstat | hstat
      · have hk : kv.1 = strLower kv.2.name := hlow2 kv hkvm
        have heq2 : strLower kv.2.name = strLower c1.name := heq
        have hl1 : k1 = strLower c1.name := hlow1 (k1, c1) hm1
        have hk1 : kv.1 = k1 := by
          rw [hk, heq2, hl1]
        rw [hk1] at hnotk
        rw [show hasKey m1 k1 = true from
          getEntry_isSome_of_mem hm1] at hnotk
        cases hnotk
      · simp at hstat
  · intro tn rows cols
    unfold parseTableSchema
    simp only
    generalize (((lastHeaderIdx cols "column_name").orElse
      fun _ => lastHeaderIdx cols "name").getD 0) = nameIdx
    generalize (((lastHeaderIdx cols "data_type").orElse
      fun _ => lastHeaderIdx cols "type").getD 1) = typeIdx
    generalize (((lastHeaderIdx cols "is_nullable").orElse
      fun _ => lastHeaderIdx cols "notnull").getD 2) = nullIdx
    generalize ((lastHeaderIdx cols "column_default").orElse
      fun _ => lastHeaderIdx cols "dflt_value") = defIdx
    suffices H : ∀ (rs : List (List String)) (acc : List (String × ColumnSchema)),
        lowerNamedCols acc →
        lowerNamedCols (rs.foldl
          (fun m row => insertEntry m
            (strLower ((row.get? nameIdx).getD "undefined"))
            { name := (row.get? nameIdx).getD "undefined"
              type := (row.get? typeIdx).getD "undefined"
              nullable := strLower ((row.get? nullIdx).getD "undefined") = "yes" ||
                (row.get? nullIdx).getD "undefined" = "0" ||
                strLower ((row.get? nullIdx).getD "undefined") = "true"
              defaultValue := defIdx.bind row.get? }) acc) from
      H rows [] (by intro kv hkv; cases hkv)
    intro rs
    induction rs with
    | nil => intro acc hacc; exact hacc
    | cons row rest ih =>
      intro acc hacc
      apply ih
      intro kv hkv
      rcases mem_insertEntry hkv with h2 | h2
      · exact hacc kv h2
      · rw [h2]

def u1Col : ColumnSchema :=
  { name := "id", type := "int", nullable := false, defaultValue := none }

def u2Col : ColumnSchema :=
  { name := "ID", type := "integer", nullable := false, defaultValue := none }

def u1Table : TableSchema :=
  { tableName := "Users", columns := [("id", u1Col)], indexes := [] }

def u2Table : TableSchema :=
  { tableName := "USERS", columns := [("id", u2Col)], indexes := [] }

/-- Witness for C10 on tables `Users`/`USERS` with columns `id`/`ID`. -/
theorem compareSchemas_case_insensitive_witness :
    (u1Table ∈ [u1Table] ∧ u2Table ∈ [u2Table] ∧
      strLower u1Table.tableName = strLower u2Table.tableName ∧
      lowerNamedCols u1Table.columns ∧ lowerNamedCols u2Table.columns ∧
      ("id", u1Col) ∈ u1Table.columns ∧ ("id", u2Col) ∈ u2Table.columns ∧
      strLower u1Col.name = strLower u2Col.name) ∧
    (∀ d ∈ (compareSchemas [u1Table] [u2Table] "s" "d").differences,
      (d.status = .added ∨ d.status = .removed) →
      strLower d.tableName ≠ strLower u1Table.tableName) ∧
    (∀ cd ∈ compareColumns u1Table.columns u2Table.columns,
      (cd.status = .added ∨ cd.status = .removed) →
      strLower cd.columnName ≠ strLower u1Col.name) ∧
    lowerNamedCols (parseTableSchema "t" [["ID", "int", "NO"]]
      ["column_name", "data_type", "is_nullable"]).columns := by
  have hlow1 : lowerNamedCols u1Table.columns := by
    unfold lowerNamedCols
    decide
  have hlow2 : lowerNamedCols u2Table.columns := by
    unfold lowerNamedCols
    decide
  refine ⟨⟨by decide, by decide, by decide, hlow1, hlow2, by decide,
           by decide, by decide⟩, ?_, ?_, ?_⟩
  · exact compareSchemas_case_insensitive.1 [u1Table] [u2Table] "s" "d"
      u1Table u2Table (by decide) (by decide) (by decide)
  · exact compareSchemas_case_insensitive.2.1 u1Table.columns u2Table.columns
      hlow1 hlow2 "id" "id" u1Col u2Col
      (by decide) (by decide) (by decide)
  · exact compareSchemas_case_insensitive.2.2 "t" [["ID", "int", "NO"]]
      ["column_name", "data_type", "is_nullable"]

end DBeaverMCP
